import Mathlib

/-!
Shallow embedding of the SQiurreL query front end (tokenizer + recursive
descent parser), translated from `src/query/parser.rs` and
`src/query/lexer.rs`.  The parser source is present in the repository and is
the authority; the tokenizer body, the error type and several token kinds are
referenced by the parser but absent from the sources, so they are modelled
from the specification (each such definition is marked in its doc comment).
-/

set_option maxRecDepth 4000

/-- Token kinds, translated from `src/query/lexer.rs` (`pub enum Token`).
The variants `Insert`, `Into`, `Values`, `Set`, `Eq`, `Bool` and `Eof` are
not in the source enumeration but are required by the parser; they are
modelled from the spec (§9), which directs that the missing kinds be added
and that the duplicate `=` representation (`Assign` vs `Eq`) be reconciled:
the lexer below produces `Eq` for `=`, since the parser consumes only `Eq`. -/
inductive Token where
  | Null
  | Num (text : String)
  | Text (content : String)
  | Ident (name : String)
  | Create
  | Table
  | Select
  | From
  | Where
  | Update
  | Alter
  | Delete
  | Drop
  | Dot
  | Comma
  | Semicolon
  | LParen
  | RParen
  | Not
  | And
  | Or
  | Assign
  | Gt
  | Lt
  | Ge
  | Le
  | Add
  | Sub
  | Mul
  | Div
  | Insert
  | Into
  | Values
  | Set
  | Eq
  | Bool (b : Bool)
  | Eof
deriving DecidableEq

/-- Variant discriminant of a token, modelling `std::mem::discriminant`:
two tokens agree on `tag` exactly when they are built from the same
constructor. `Eof` is the unique token with tag 36. -/
def Token.tag : Token → Nat
  | .Null => 0
  | .Num _ => 1
  | .Text _ => 2
  | .Ident _ => 3
  | .Create => 4
  | .Table => 5
  | .Select => 6
  | .From => 7
  | .Where => 8
  | .Update => 9
  | .Alter => 10
  | .Delete => 11
  | .Drop => 12
  | .Dot => 13
  | .Comma => 14
  | .Semicolon => 15
  | .LParen => 16
  | .RParen => 17
  | .Not => 18
  | .And => 19
  | .Or => 20
  | .Assign => 21
  | .Gt => 22
  | .Lt => 23
  | .Ge => 24
  | .Le => 25
  | .Add => 26
  | .Sub => 27
  | .Mul => 28
  | .Div => 29
  | .Insert => 30
  | .Into => 31
  | .Values => 32
  | .Set => 33
  | .Eq => 34
  | .Bool _ => 35
  | .Eof => 36

/-- Debug rendering of a token, modelling Rust's derived `Debug`
formatting used by the parser's `format!("{:?}", tok)` error messages. -/
def Token.reprStr : Token → String
  | .Null => "Null"
  | .Num s => "Num(\"" ++ s ++ "\")"
  | .Text s => "Text(\"" ++ s ++ "\")"
  | .Ident s => "Ident(\"" ++ s ++ "\")"
  | .Create => "Create"
  | .Table => "Table"
  | .Select => "Select"
  | .From => "From"
  | .Where => "Where"
  | .Update => "Update"
  | .Alter => "Alter"
  | .Delete => "Delete"
  | .Drop => "Drop"
  | .Dot => "Dot"
  | .Comma => "Comma"
  | .Semicolon => "Semicolon"
  | .LParen => "LParen"
  | .RParen => "RParen"
  | .Not => "Not"
  | .And => "And"
  | .Or => "Or"
  | .Assign => "Assign"
  | .Gt => "Gt"
  | .Lt => "Lt"
  | .Ge => "Ge"
  | .Le => "Le"
  | .Add => "Add"
  | .Sub => "Sub"
  | .Mul => "Mul"
  | .Div => "Div"
  | .Insert => "Insert"
  | .Into => "Into"
  | .Values => "Values"
  | .Set => "Set"
  | .Eq => "Eq"
  | .Bool b => if b then "Bool(true)" else "Bool(false)"
  | .Eof => "Eof"

/-- Modelled from the spec: the error type `QueryErr` lives in
`src/query/error.rs`, which is absent from the sources; §7 fixes the
taxonomy as exactly three variants: lexical error, unexpected-token error
(expected vs found descriptions) and invalid-expression error. -/
inductive QueryErr where
  | lexError (msg : String)
  | unexpectedToken (expected found : String)
  | invalidExpr (msg : String)
deriving DecidableEq

/-- Scalar expressions, translated from `enum Expr` in `src/query/parser.rs`.
`Float(f64)` is embedded with the exact rational value of the literal
(IEEE rounding of `f64` is not modelled). -/
inductive Expr where
  | Null
  | Bool (b : Bool)
  | Int (i : Int)
  | Float (q : Rat)
  | Text (s : String)
  | Ident (name : String)
  | Unary (op : String) (right : Expr)
  | Binary (op : String) (left : Expr) (right : Expr)
deriving DecidableEq

/-- Clauses, translated from `enum Clause` in `src/query/parser.rs`. -/
inductive Clause where
  | Values (exprs : List Expr)
  | Columns (cols : List String)
  | Assigns (assigns : List (String × Expr))
  | Defs (defs : List (String × String))
  | OrderBy (keys : List (String × Bool))
  | Where (cond : Expr)
  | Limit (n : Nat)
deriving DecidableEq

/-- Statements, translated from `enum Stmt` in `src/query/parser.rs`. -/
inductive Stmt where
  | Create (table : String) (defs : Clause) (clauses : List Clause)
  | Insert (table : String) (columns : Clause) (values : Clause) (clauses : List Clause)
  | Select (table : String) (columns : Clause) (clauses : List Clause)
  | Update (table : String) (assigns : Clause) (clauses : List Clause)
  | Delete (table : String) (clauses : List Clause)
  | Drop (table : String)
  | Union (left : Stmt) (right : Stmt) (all : Bool)
deriving DecidableEq

def isWsChar (c : Char) : Bool :=
  c = ' ' || c = '\t' || c = '\n' || c = '\r'

def isDigitChar (c : Char) : Bool :=
  '0' ≤ c && c ≤ '9'

def isNumChar (c : Char) : Bool :=
  isDigitChar c || c = '.'

def isIdentStartChar (c : Char) : Bool :=
  ('a' ≤ c && c ≤ 'z') || ('A' ≤ c && c ≤ 'Z') || c = '_'

def isIdentChar (c : Char) : Bool :=
  isIdentStartChar c || isDigitChar c

/-- Reserved-keyword table of the tokenizer. Modelled from the spec:
§3 and §9 list the reserved words (including the keywords missing from the
source token enumeration) and §4.1 requires keywords to be recognized as
distinct token kinds. -/
def keywords : List (String × Token) :=
  [("NULL", Token.Null),
   ("CREATE", Token.Create),
   ("TABLE", Token.Table),
   ("SELECT", Token.Select),
   ("FROM", Token.From),
   ("WHERE", Token.Where),
   ("UPDATE", Token.Update),
   ("ALTER", Token.Alter),
   ("DELETE", Token.Delete),
   ("DROP", Token.Drop),
   ("INSERT", Token.Insert),
   ("INTO", Token.Into),
   ("VALUES", Token.Values),
   ("SET", Token.Set),
   ("NOT", Token.Not),
   ("AND", Token.And),
   ("OR", Token.Or),
   ("TRUE", Token.Bool true),
   ("FALSE", Token.Bool false)]

def keywordToken (s : String) : Option Token :=
  (keywords.find? (fun p => p.1 = s)).map (fun p => p.2)

/-- Modelled from the spec: the tokenizer (`Lexer`) body is absent from the
sources; §4.1 fixes its contract. Scan one token from whitespace-stripped
input: recognize (in order) digit-led numeric runs (digits and dots,
validity deferred to the parser), keyword/identifier runs, quote-delimited
text literals (unterminated literal is a lexical error), the greedy
two-character operators `>=` `<=` before `>` `<`, single-character operators
and punctuation; an unrecognized character is a lexical error, and an
exhausted input yields `Eof` (idempotently, since the remainder stays
empty). -/
def lexToken (cs₁ : List Char) : Except QueryErr (Token × List Char) :=
  match cs₁ with
  | [] => .ok (.Eof, [])
  | c :: rest =>
    if isDigitChar c then
      .ok (.Num (String.mk (cs₁.takeWhile isNumChar)), cs₁.dropWhile isNumChar)
    else if isIdentStartChar c then
      let s := String.mk (cs₁.takeWhile isIdentChar)
      match keywordToken s with
      | some tk => .ok (tk, cs₁.dropWhile isIdentChar)
      | none => .ok (.Ident s, cs₁.dropWhile isIdentChar)
    else if c = '\'' then
      match rest.dropWhile (fun d => ¬ d = '\'') with
      | [] => .error (.lexError "Unterminated text literal")
      | _ :: after => .ok (.Text (String.mk (rest.takeWhile (fun d => ¬ d = '\''))), after)
    else if c = '>' then
      if rest.head? = some '=' then .ok (.Ge, rest.tail) else .ok (.Gt, rest)
    else if c = '<' then
      if rest.head? = some '=' then .ok (.Le, rest.tail) else .ok (.Lt, rest)
    else if c = '=' then .ok (.Eq, rest)
    else if c = '.' then .ok (.Dot, rest)
    else if c = ',' then .ok (.Comma, rest)
    else if c = ';' then .ok (.Semicolon, rest)
    else if c = '(' then .ok (.LParen, rest)
    else if c = ')' then .ok (.RParen, rest)
    else if c = '+' then .ok (.Add, rest)
    else if c = '-' then .ok (.Sub, rest)
    else if c = '*' then .ok (.Mul, rest)
    else if c = '/' then .ok (.Div, rest)
    else .error (.lexError ("Unexpected character: " ++ String.mk [c]))

/-- Modelled from the spec: one tokenizer step (§4.1) — skip insignificant
whitespace, then scan one token with `lexToken`. -/
def lexNext (cs : List Char) : Except QueryErr (Token × List Char) :=
  lexToken (cs.dropWhile isWsChar)

/-- Parser state, translated from `struct Parser` in `src/query/parser.rs`:
the (lazily scanned) remainder of the input plays the role of the `lexer`
field, plus the `curr` and `peek` lookahead tokens. -/
structure PState where
  lexer : List Char
  curr : Token
  peek : Token
deriving DecidableEq

/-- Translated from `Parser::new`: prime `curr` and `peek` by pulling two
tokens; this is the only place lexing errors surface during setup. -/
def mkParser (input : String) : Except QueryErr PState :=
  match lexNext input.data with
  | .error e => .error e
  | .ok (curr, r₁) =>
    match lexNext r₁ with
    | .error e => .error e
    | .ok (peek, r₂) => .ok ⟨r₂, curr, peek⟩

/-- Translated from `Parser::next`: return the current token, shift `peek`
into `curr`, and lex one fresh token into `peek`. -/
def PState.next (st : PState) : Except QueryErr (Token × PState) :=
  match lexNext st.lexer with
  | .error e => .error e
  | .ok (t, rest) => .ok (st.curr, ⟨rest, st.peek, t⟩)

/-- Translated from `Parser::expect`: consume the current token if it has
the requested variant (discriminant identity), else fail. -/
def PState.expect (st : PState) (tk : Token) : Except QueryErr PState :=
  if st.curr.tag = tk.tag then
    match st.next with
    | .error e => .error e
    | .ok (_, st') => .ok st'
  else
    .error (.unexpectedToken tk.reprStr st.curr.reprStr)

/-- Translated from `Parser::maybe`: like `expect` but reports a boolean
instead of failing. -/
def PState.maybe (st : PState) (tk : Token) : Except QueryErr (Bool × PState) :=
  if st.curr.tag = tk.tag then
    match st.next with
    | .error e => .error e
    | .ok (_, st') => .ok (true, st')
  else
    .ok (false, st)

/-- Translated from `Parser::consume_ident`. -/
def PState.consumeIdent (st : PState) : Except QueryErr (String × PState) :=
  match st.next with
  | .error e => .error e
  | .ok (Token.Ident name, st') => .ok (name, st')
  | .ok (tok, _) => .error (.unexpectedToken "<ident>" tok.reprStr)

def digitsVal (ds : List Char) : Nat :=
  ds.foldl (fun a c => a * 10 + (c.toNat - 48)) 0

/-- Modelled from the spec: Rust's `str::parse::<i64>` (the standard
library conversion invoked in `parse_primary`): an optional sign followed by
one or more digits, rejected when the value overflows the `i64` range. -/
def parseI64 (s : String) : Option Int :=
  match s.data with
  | [] => none
  | '-' :: ds =>
    if ds ≠ [] && ds.all isDigitChar then
      if digitsVal ds ≤ 2 ^ 63 then some (-(digitsVal ds : Int)) else none
    else none
  | '+' :: ds =>
    if ds ≠ [] && ds.all isDigitChar then
      if digitsVal ds < 2 ^ 63 then some (digitsVal ds : Int) else none
    else none
  | ds =>
    if ds ≠ [] && ds.all isDigitChar then
      if digitsVal ds < 2 ^ 63 then some (digitsVal ds : Int) else none
    else none

def parseF64core (ds : List Char) : Option Rat :=
  let ip := ds.takeWhile (fun c => ¬ c = '.')
  match ds.dropWhile (fun c => ¬ c = '.') with
  | [] =>
    if ip ≠ [] && ip.all isDigitChar then some (digitsVal ip : Rat) else none
  | _ :: fp =>
    if fp.any (fun c => c = '.') then none
    else if ip = [] && fp = [] then none
    else if ip.all isDigitChar && fp.all isDigitChar then
      some ((digitsVal ip : Rat) + (digitsVal fp : Rat) / ((10 : Rat) ^ fp.length))
    else none

/-- Modelled from the spec: Rust's `str::parse::<f64>` (the standard
library conversion invoked in `parse_primary`), restricted to the decimal
shapes reachable from the tokenizer's digit-led numeric runs: an optional
sign, then digits with at most one dot and at least one digit overall.
The value is embedded exactly as a rational; IEEE rounding to the nearest
double is not modelled (it does not affect acceptance). -/
def parseF64 (s : String) : Option Rat :=
  match s.data with
  | [] => none
  | '-' :: ds => (parseF64core ds).map (fun q => -q)
  | '+' :: ds => parseF64core ds
  | ds => parseF64core ds

/-- Result type of a fuel-indexed parser step: `none` means the fuel budget
was exhausted (shown unreachable for sufficient fuel below), otherwise the
Rust `Result` of a value together with the updated parser state. -/
abbrev PRes (α : Type) : Type := Option (Except QueryErr (α × PState))

def pbind (r : PRes α) (f : α → PState → PRes β) : PRes β :=
  match r with
  | none => none
  | some (.error e) => some (.error e)
  | some (.ok (a, st)) => f a st

def ebind (r : Except QueryErr (α × PState)) (f : α → PState → PRes β) : PRes β :=
  match r with
  | .error e => some (.error e)
  | .ok (a, st) => f a st

def qbind (r : Except QueryErr PState) (f : PState → PRes β) : PRes β :=
  match r with
  | .error e => some (.error e)
  | .ok st => f st

/-- Translated from the column-definition loop of `Parser::parse_create`
(one `ident ident` pair, then `,` to continue or `)` to stop). -/
def parseCreateDefsF (fuel : Nat) (acc : List (String × String)) (st : PState) :
    PRes (List (String × String)) :=
  match fuel with
  | 0 => none
  | fuel + 1 =>
    ebind st.consumeIdent fun colName st₁ =>
    ebind st₁.consumeIdent fun colType st₂ =>
    ebind st₂.next fun tok st₃ =>
    match tok with
    | Token.Comma => parseCreateDefsF fuel (acc ++ [(colName, colType)]) st₃
    | Token.RParen => some (.ok (acc ++ [(colName, colType)], st₃))
    | tok => some (.error (.unexpectedToken "',' or ')'" tok.reprStr))

/-- Translated from `Parser::parse_create`. -/
def parseCreateF (fuel : Nat) (st : PState) : PRes Stmt :=
  qbind (st.expect Token.Create) fun st₁ =>
  qbind (st₁.expect Token.Table) fun st₂ =>
  ebind st₂.consumeIdent fun table st₃ =>
  qbind (st₃.expect Token.LParen) fun st₄ =>
  pbind (parseCreateDefsF fuel [] st₄) fun columns st₅ =>
  some (.ok (Stmt.Create table (Clause.Defs columns) [], st₅))

/-- Translated from `Parser::parse_drop`. -/
def parseDropF (st : PState) : Except QueryErr (Stmt × PState) :=
  match st.expect Token.Drop with
  | .error e => .error e
  | .ok st₁ =>
    match st₁.expect Token.Table with
    | .error e => .error e
    | .ok st₂ =>
      match st₂.consumeIdent with
      | .error e => .error e
      | .ok (table, st₃) => .ok (Stmt.Drop table, st₃)

/-- Translated from the optional-column-list loop of `Parser::parse_insert`
(one `ident`, then `,` to continue or `)` to stop). -/
def parseInsertColsF (fuel : Nat) (acc : List String) (st : PState) : PRes (List String) :=
  match fuel with
  | 0 => none
  | fuel + 1 =>
    ebind st.consumeIdent fun name st₁ =>
    ebind st₁.next fun tok st₂ =>
    match tok with
    | Token.Comma => parseInsertColsF fuel (acc ++ [name]) st₂
    | Token.RParen => some (.ok (acc ++ [name], st₂))
    | tok => some (.error (.unexpectedToken "',' or ')'" tok.reprStr))

/-- Translated from the column-list loop of `Parser::parse_select`
(one `ident`, then continue while a `,` is consumed). -/
def parseSelectColsF (fuel : Nat) (acc : List String) (st : PState) : PRes (List String) :=
  match fuel with
  | 0 => none
  | fuel + 1 =>
    ebind st.consumeIdent fun name st₁ =>
    ebind (st₁.maybe Token.Comma) fun more st₂ =>
    if more then parseSelectColsF fuel (acc ++ [name]) st₂
    else some (.ok (acc ++ [name], st₂))

/-- Comparison-operator table of `Parser::parse_comparison`: the match on
`&self.curr` selecting the textual operator tag, `None` meaning the
"return left operand unchanged" arm. -/
def compOpStr : Token → Option String
  | Token.Eq => some "="
  | Token.Gt => some ">"
  | Token.Lt => some "<"
  | Token.Ge => some ">="
  | Token.Le => some "<="
  | _ => none

mutual

/-- Translated from `Parser::parse_primary`. -/
def parsePrimaryF (fuel : Nat) (st : PState) : PRes Expr :=
  match fuel with
  | 0 => none
  | fuel + 1 =>
    ebind st.next fun tok st₁ =>
    match tok with
    | Token.Null => some (.ok (Expr.Null, st₁))
    | Token.Bool b => some (.ok (Expr.Bool b, st₁))
    | Token.Num n =>
      match parseI64 n with
      | some i => some (.ok (Expr.Int i, st₁))
      | none =>
        match parseF64 n with
        | some q => some (.ok (Expr.Float q, st₁))
        | none => some (.error (.invalidExpr ("Invalid number: " ++ n)))
    | Token.Text t => some (.ok (Expr.Text t, st₁))
    | Token.Ident i => some (.ok (Expr.Ident i, st₁))
    | Token.LParen =>
      pbind (parseExprF fuel st₁) fun e st₂ =>
      qbind (st₂.expect Token.RParen) fun st₃ =>
      some (.ok (e, st₃))
    | tok => some (.error (.unexpectedToken "<expr>" tok.reprStr))

/-- Translated from `Parser::parse_comparison` (non-chaining: at most one
comparison operator per pair of primaries). -/
def parseComparisonF (fuel : Nat) (st : PState) : PRes Expr :=
  match fuel with
  | 0 => none
  | fuel + 1 =>
    pbind (parsePrimaryF fuel st) fun left st₁ =>
    match compOpStr st₁.curr with
    | none => some (.ok (left, st₁))
    | some op =>
      ebind st₁.next fun _ st₂ =>
      pbind (parsePrimaryF fuel st₂) fun right st₃ =>
      some (.ok (Expr.Binary op left right, st₃))

/-- Translated from the `while self.maybe(&Token::And)?` loop of
`Parser::parse_logical_and`, folding left-associatively. -/
def parseAndRestF (fuel : Nat) (left : Expr) (st : PState) : PRes Expr :=
  match fuel with
  | 0 => none
  | fuel + 1 =>
    ebind (st.maybe Token.And) fun more st₁ =>
    if more then
      pbind (parseComparisonF fuel st₁) fun right st₂ =>
      parseAndRestF fuel (Expr.Binary "AND" left right) st₂
    else some (.ok (left, st₁))

/-- Translated from `Parser::parse_logical_and`. -/
def parseLogicalAndF (fuel : Nat) (st : PState) : PRes Expr :=
  match fuel with
  | 0 => none
  | fuel + 1 =>
    pbind (parseComparisonF fuel st) fun left st₁ =>
    parseAndRestF fuel left st₁

/-- Translated from the `while self.maybe(&Token::Or)?` loop of
`Parser::parse_logical_or`, folding left-associatively. -/
def parseOrRestF (fuel : Nat) (left : Expr) (st : PState) : PRes Expr :=
  match fuel with
  | 0 => none
  | fuel + 1 =>
    ebind (st.maybe Token.Or) fun more st₁ =>
    if more then
      pbind (parseLogicalAndF fuel st₁) fun right st₂ =>
      parseOrRestF fuel (Expr.Binary "OR" left right) st₂
    else some (.ok (left, st₁))

/-- Translated from `Parser::parse_logical_or`. -/
def parseLogicalOrF (fuel : Nat) (st : PState) : PRes Expr :=
  match fuel with
  | 0 => none
  | fuel + 1 =>
    pbind (parseLogicalAndF fuel st) fun left st₁ =>
    parseOrRestF fuel left st₁

/-- Translated from `Parser::parse_expr`. -/
def parseExprF (fuel : Nat) (st : PState) : PRes Expr :=
  match fuel with
  | 0 => none
  | fuel + 1 => parseLogicalOrF fuel st

/-- Translated from the value-list loop of `Parser::parse_insert`
(one `expr`, then `,` to continue or `)` to stop). -/
def parseInsertValsF (fuel : Nat) (acc : List Expr) (st : PState) : PRes (List Expr) :=
  match fuel with
  | 0 => none
  | fuel + 1 =>
    pbind (parseExprF fuel st) fun e st₁ =>
    ebind st₁.next fun tok st₂ =>
    match tok with
    | Token.Comma => parseInsertValsF fuel (acc ++ [e]) st₂
    | Token.RParen => some (.ok (acc ++ [e], st₂))
    | tok => some (.error (.unexpectedToken "',' or ')'" tok.reprStr))

/-- Translated from the assignment-list loop of `Parser::parse_update`
(one `ident '=' expr`, then continue while a `,` is consumed). -/
def parseUpdateAssignsF (fuel : Nat) (acc : List (String × Expr)) (st : PState) :
    PRes (List (String × Expr)) :=
  match fuel with
  | 0 => none
  | fuel + 1 =>
    ebind st.consumeIdent fun col st₁ =>
    qbind (st₁.expect Token.Eq) fun st₂ =>
    pbind (parseExprF fuel st₂) fun val st₃ =>
    ebind (st₃.maybe Token.Comma) fun more st₄ =>
    if more then parseUpdateAssignsF fuel (acc ++ [(col, val)]) st₄
    else some (.ok (acc ++ [(col, val)], st₄))

/-- Translated from `Parser::parse_insert`. -/
def parseInsertF (fuel : Nat) (st : PState) : PRes Stmt :=
  match fuel with
  | 0 => none
  | fuel + 1 =>
    qbind (st.expect Token.Insert) fun st₁ =>
    qbind (st₁.expect Token.Into) fun st₂ =>
    ebind st₂.consumeIdent fun table st₃ =>
    ebind (st₃.maybe Token.LParen) fun hasCols st₄ =>
    pbind (if hasCols then parseInsertColsF fuel [] st₄ else some (.ok ([], st₄)))
      fun columns st₅ =>
    qbind (st₅.expect Token.Values) fun st₆ =>
    qbind (st₆.expect Token.LParen) fun st₇ =>
    pbind (parseInsertValsF fuel [] st₇) fun values st₈ =>
    some (.ok (Stmt.Insert table (Clause.Columns columns) (Clause.Values values) [], st₈))

/-- Translated from `Parser::parse_select`. -/
def parseSelectF (fuel : Nat) (st : PState) : PRes Stmt :=
  match fuel with
  | 0 => none
  | fuel + 1 =>
    qbind (st.expect Token.Select) fun st₁ =>
    pbind (if st₁.curr = Token.Mul then
             ebind st₁.next fun _ st₂ => some (.ok (["*"], st₂))
           else parseSelectColsF fuel [] st₁)
      fun columns st₂ =>
    qbind (st₂.expect Token.From) fun st₃ =>
    ebind st₃.consumeIdent fun table st₄ =>
    ebind (st₄.maybe Token.Where) fun hasWhere st₅ =>
    pbind (if hasWhere then
             pbind (parseExprF fuel st₅) fun cond st₆ =>
             some (.ok ([Clause.Where cond], st₆))
           else some (.ok ([], st₅)))
      fun clauses st₆ =>
    some (.ok (Stmt.Select table (Clause.Columns columns) clauses, st₆))

/-- Translated from `Parser::parse_update`. -/
def parseUpdateF (fuel : Nat) (st : PState) : PRes Stmt :=
  match fuel with
  | 0 => none
  | fuel + 1 =>
    qbind (st.expect Token.Update) fun st₁ =>
    ebind st₁.consumeIdent fun table st₂ =>
    qbind (st₂.expect Token.Set) fun st₃ =>
    pbind (parseUpdateAssignsF fuel [] st₃) fun assigns st₄ =>
    ebind (st₄.maybe Token.Where) fun hasWhere st₅ =>
    pbind (if hasWhere then
             pbind (parseExprF fuel st₅) fun cond st₆ =>
             some (.ok ([Clause.Where cond], st₆))
           else some (.ok ([], st₅)))
      fun clauses st₆ =>
    some (.ok (Stmt.Update table (Clause.Assigns assigns) clauses, st₆))

/-- Translated from `Parser::parse_delete`. -/
def parseDeleteF (fuel : Nat) (st : PState) : PRes Stmt :=
  match fuel with
  | 0 => none
  | fuel + 1 =>
    qbind (st.expect Token.Delete) fun st₁ =>
    qbind (st₁.expect Token.From) fun st₂ =>
    ebind st₂.consumeIdent fun table st₃ =>
    ebind (st₃.maybe Token.Where) fun hasWhere st₄ =>
    pbind (if hasWhere then
             pbind (parseExprF fuel st₄) fun cond st₅ =>
             some (.ok ([Clause.Where cond], st₅))
           else some (.ok ([], st₄)))
      fun clauses st₅ =>
    some (.ok (Stmt.Delete table clauses, st₅))

/-- Translated from `Parser::parse_stmt` (statement dispatch on the
current token's kind). -/
def parseStmtF (fuel : Nat) (st : PState) : PRes Stmt :=
  match fuel with
  | 0 => none
  | fuel + 1 =>
    match st.curr with
    | Token.Create => parseCreateF fuel st
    | Token.Insert => parseInsertF fuel st
    | Token.Select => parseSelectF fuel st
    | Token.Update => parseUpdateF fuel st
    | Token.Delete => parseDeleteF fuel st
    | Token.Drop => some (parseDropF st)
    | tok => some (.error (.unexpectedToken "<stmt>" tok.reprStr))

/-- Translated from `Parser::parse_block`: parse statements until a
terminator kind is current, skipping bare `;` separators. -/
def parseBlockF (fuel : Nat) (terms : List Token) (st : PState) : PRes (List Stmt) :=
  match fuel with
  | 0 => none
  | fuel + 1 =>
    if terms.any (fun t => t.tag = st.curr.tag) then
      some (.ok ([], st))
    else if st.curr = Token.Semicolon then
      ebind st.next fun _ st₁ => parseBlockF fuel terms st₁
    else
      pbind (parseStmtF fuel st) fun stmt st₁ =>
      pbind (parseBlockF fuel terms st₁) fun stmts st₂ =>
      some (.ok (stmt :: stmts, st₂))

end

/-- Weight of a token for the termination measure: the end-of-input token
weighs nothing (the lexer keeps producing it once exhausted), every other
token weighs one. -/
def tokenWeight (t : Token) : Nat :=
  if t.tag = 36 then 0 else 1

/-- Termination measure of a parser state: unscanned characters plus the
weights of the two lookahead tokens. Every successful token consumption
strictly decreases it (for a non-`Eof` token). -/
def PState.measure (st : PState) : Nat :=
  st.lexer.length + tokenWeight st.curr + tokenWeight st.peek

/-- Fuel budget sufficient for a whole parse from state `st` (shown
sufficient by `parseBlockF_fuel_sufficient` below). -/
def PState.fuelBound (st : PState) : Nat :=
  16 * st.measure + 16

/-- Translated from `Parser::parse` (composed with `Parser::new`): the
whole pipeline from query text to the statement sequence, run with the
sufficient fuel budget. `none` (fuel exhaustion) is proved unreachable. -/
def parse (input : String) : Option (Except QueryErr (List Stmt)) :=
  match mkParser input with
  | .error e => some (.error e)
  | .ok st =>
    match parseBlockF st.fuelBound [Token.Eof] st with
    | none => none
    | some (.error e) => some (.error e)
    | some (.ok (stmts, _)) => some (.ok stmts)

/-- `Parser::new` followed by a single `Parser::parse_stmt`, as used by the
repository's unit tests. -/
def parseStmtTop (input : String) : Option (Except QueryErr Stmt) :=
  match mkParser input with
  | .error e => some (.error e)
  | .ok st =>
    match parseStmtF st.fuelBound st with
    | none => none
    | some (.error e) => some (.error e)
    | some (.ok (stmt, _)) => some (.ok stmt)

/-- `Parser::new` followed by a single `Parser::parse_expr`, also
reporting the token left current when the expression parser stopped. -/
def parseExprRemTop (input : String) : Option (Except QueryErr (Expr × Token)) :=
  match mkParser input with
  | .error e => some (.error e)
  | .ok st =>
    match parseExprF st.fuelBound st with
    | none => none
    | some (.error e) => some (.error e)
    | some (.ok (e, st')) => some (.ok (e, st'.curr))

/-- Clause-shape invariant of parser output (spec §3/§6): the `clauses`
field of every produced statement holds either no entry or exactly one
`Where` entry; statement kinds without a `clauses` field are unconstrained. -/
def stmtClausesOk : Stmt → Prop
  | .Create _ _ cls => cls = [] ∨ ∃ e, cls = [Clause.Where e]
  | .Insert _ _ _ cls => cls = [] ∨ ∃ e, cls = [Clause.Where e]
  | .Select _ _ cls => cls = [] ∨ ∃ e, cls = [Clause.Where e]
  | .Update _ _ cls => cls = [] ∨ ∃ e, cls = [Clause.Where e]
  | .Delete _ cls => cls = [] ∨ ∃ e, cls = [Clause.Where e]
  | .Drop _ => True
  | .Union _ _ _ => True

deriving instance DecidableEq for Except

theorem length_dropWhile_le (p : α → Bool) (l : List α) :
    (l.dropWhile p).length ≤ l.length := by
  induction l with
  | nil => simp
  | cons a l ih =>
    rw [List.dropWhile_cons]
    split
    · exact Nat.le_trans ih (Nat.le_succ _)
    · exact Nat.le_refl _

theorem tokenWeight_le_one (t : Token) : tokenWeight t ≤ 1 := by
  unfold tokenWeight
  split <;> omega

theorem tokenWeight_of_tag_ne {t : Token} (h : t.tag ≠ 36) : tokenWeight t = 1 := by
  simp [tokenWeight, h]

theorem keywordToken_tag {s : String} {tk : Token} (h : keywordToken s = some tk) :
    tk.tag ≠ 36 := by
  have hall : ∀ p ∈ keywords, Token.tag p.2 ≠ 36 := by decide
  unfold keywordToken at h
  cases hf : keywords.find? (fun p => p.1 = s) with
  | none => rw [hf] at h; cases h
  | some p =>
    rw [hf] at h
    have hmem := List.mem_of_find?_eq_some hf
    have := hall p hmem
    simp only [Option.map_some'] at h
    cases h
    exact this

theorem lexToken_measure {cs : List Char} {t : Token} {cs' : List Char}
    (h : lexToken cs = .ok (t, cs')) : cs'.length + tokenWeight t ≤ cs.length := by
  cases cs with
  | nil =>
    simp only [lexToken] at h
    cases h
    simp [tokenWeight, Token.tag]
  | cons c rest =>
    simp only [lexToken] at h
    by_cases h1 : isDigitChar c
    · rw [if_pos h1] at h
      cases h
      have hnum : isNumChar c = true := by simp [isNumChar, h1]
      rw [List.dropWhile_cons_of_pos hnum]
      have := length_dropWhile_le isNumChar rest
      have hw : tokenWeight (Token.Num (String.mk (List.takeWhile isNumChar (c :: rest)))) = 1 := by
        simp [tokenWeight, Token.tag]
      rw [hw]
      simp only [List.length_cons]
      omega
    rw [if_neg h1] at h
    by_cases h2 : isIdentStartChar c
    · rw [if_pos h2] at h
      have hid : isIdentChar c = true := by simp [isIdentChar, h2]
      have hlen := length_dropWhile_le isIdentChar rest
      cases hk : keywordToken (String.mk (List.takeWhile isIdentChar (c :: rest))) with
      | some tk =>
        rw [hk] at h
        cases h
        rw [List.dropWhile_cons_of_pos hid]
        rw [tokenWeight_of_tag_ne (keywordToken_tag hk)]
        simp only [List.length_cons]
        omega
      | none =>
        rw [hk] at h
        cases h
        rw [List.dropWhile_cons_of_pos hid]
        have hw : tokenWeight (Token.Ident (String.mk (List.takeWhile isIdentChar (c :: rest)))) = 1 := by
          simp [tokenWeight, Token.tag]
        rw [hw]
        simp only [List.length_cons]
        omega
    rw [if_neg h2] at h
    by_cases h3 : c = '\''
    · rw [if_pos h3] at h
      cases hdw : rest.dropWhile (fun d => ¬ d = '\'') with
      | nil => rw [hdw] at h; cases h
      | cons d after =>
        rw [hdw] at h
        cases h
        have hlen := length_dropWhile_le (fun d => decide (¬ d = '\'')) rest
        rw [hdw] at hlen
        have hw : tokenWeight (Token.Text (String.mk (List.takeWhile (fun d => ¬ d = '\'') rest))) = 1 := by
          simp [tokenWeight, Token.tag]
        rw [hw]
        simp only [List.length_cons] at hlen ⊢
        omega
    rw [if_neg h3] at h
    by_cases h4 : c = '>'
    · rw [if_pos h4] at h
      by_cases h5 : rest.head? = some '='
      · rw [if_pos h5] at h
        cases h
        have htl : rest.tail.length ≤ rest.length := by cases rest <;> simp
        have hw : tokenWeight Token.Ge = 1 := by decide
        simp only [hw, List.length_cons]
        omega
      · rw [if_neg h5] at h
        cases h
        simp [tokenWeight, Token.tag]
    rw [if_neg h4] at h
    by_cases h6 : c = '<'
    · rw [if_pos h6] at h
      by_cases h7 : rest.head? = some '='
      · rw [if_pos h7] at h
        cases h
        have htl : rest.tail.length ≤ rest.length := by cases rest <;> simp
        have hw : tokenWeight Token.Le = 1 := by decide
        simp only [hw, List.length_cons]
        omega
      · rw [if_neg h7] at h
        cases h
        simp [tokenWeight, Token.tag]
    rw [if_neg h6] at h
    by_cases h8 : c = '='
    · rw [if_pos h8] at h; cases h; simp [tokenWeight, Token.tag]
    rw [if_neg h8] at h
    by_cases h9 : c = '.'
    · rw [if_pos h9] at h; cases h; simp [tokenWeight, Token.tag]
    rw [if_neg h9] at h
    by_cases h10 : c = ','
    · rw [if_pos h10] at h; cases h; simp [tokenWeight, Token.tag]
    rw [if_neg h10] at h
    by_cases h11 : c = ';'
    · rw [if_pos h11] at h; cases h; simp [tokenWeight, Token.tag]
    rw [if_neg h11] at h
    by_cases h12 : c = '('
    · rw [if_pos h12] at h; cases h; simp [tokenWeight, Token.tag]
    rw [if_neg h12] at h
    by_cases h13 : c = ')'
    · rw [if_pos h13] at h; cases h; simp [tokenWeight, Token.tag]
    rw [if_neg h13] at h
    by_cases h14 : c = '+'
    · rw [if_pos h14] at h; cases h; simp [tokenWeight, Token.tag]
    rw [if_neg h14] at h
    by_cases h15 : c = '-'
    · rw [if_pos h15] at h; cases h; simp [tokenWeight, Token.tag]
    rw [if_neg h15] at h
    by_cases h16 : c = '*'
    · rw [if_pos h16] at h; cases h; simp [tokenWeight, Token.tag]
    rw [if_neg h16] at h
    by_cases h17 : c = '/'
    · rw [if_pos h17] at h; cases h; simp [tokenWeight, Token.tag]
    rw [if_neg h17] at h
    cases h

theorem lexNext_measure {cs : List Char} {t : Token} {cs' : List Char}
    (h : lexNext cs = .ok (t, cs')) : cs'.length + tokenWeight t ≤ cs.length :=
  Nat.le_trans (lexToken_measure h) (length_dropWhile_le isWsChar cs)

theorem PState.next_ok {st : PState} {t : Token} {st' : PState}
    (h : st.next = .ok (t, st')) :
    t = st.curr ∧ st'.measure + tokenWeight st.curr ≤ st.measure := by
  unfold PState.next at h
  cases hl : lexNext st.lexer with
  | error e => rw [hl] at h; cases h
  | ok p =>
    obtain ⟨tk, rest⟩ := p
    rw [hl] at h
    cases h
    have hm := lexNext_measure hl
    have hpk := tokenWeight_le_one st.peek
    have hcu := tokenWeight_le_one st.curr
    refine ⟨rfl, ?_⟩
    simp only [PState.measure]
    omega

theorem PState.expect_ok {st : PState} {tk : Token} {st' : PState}
    (h : st.expect tk = .ok st') :
    st.curr.tag = tk.tag ∧ st'.measure + tokenWeight st.curr ≤ st.measure := by
  unfold PState.expect at h
  by_cases hc : st.curr.tag = tk.tag
  · rw [if_pos hc] at h
    cases hn : st.next with
    | error e => rw [hn] at h; cases h
    | ok p =>
      obtain ⟨t, s⟩ := p
      rw [hn] at h
      cases h
      exact ⟨hc, (PState.next_ok hn).2⟩
  · rw [if_neg hc] at h
    cases h

theorem PState.expect_ok_lt {st : PState} {tk : Token} {st' : PState}
    (h : st.expect tk = .ok st') (htk : tk.tag ≠ 36) :
    st'.measure < st.measure := by
  obtain ⟨hc, hm⟩ := PState.expect_ok h
  have : tokenWeight st.curr = 1 := tokenWeight_of_tag_ne (by rw [hc]; exact htk)
  omega

theorem PState.maybe_ok_true {st : PState} {tk : Token} {st' : PState}
    (h : st.maybe tk = .ok (true, st')) :
    st.curr.tag = tk.tag ∧ st'.measure + tokenWeight st.curr ≤ st.measure := by
  unfold PState.maybe at h
  by_cases hc : st.curr.tag = tk.tag
  · rw [if_pos hc] at h
    cases hn : st.next with
    | error e => rw [hn] at h; cases h
    | ok p =>
      obtain ⟨t, s⟩ := p
      rw [hn] at h
      cases h
      exact ⟨hc, (PState.next_ok hn).2⟩
  · rw [if_neg hc] at h
    cases h

theorem PState.maybe_ok_true_lt {st : PState} {tk : Token} {st' : PState}
    (h : st.maybe tk = .ok (true, st')) (htk : tk.tag ≠ 36) :
    st'.measure < st.measure := by
  obtain ⟨hc, hm⟩ := PState.maybe_ok_true h
  have : tokenWeight st.curr = 1 := tokenWeight_of_tag_ne (by rw [hc]; exact htk)
  omega

theorem PState.maybe_ok_false {st : PState} {tk : Token} {st' : PState}
    (h : st.maybe tk = .ok (false, st')) : st' = st := by
  unfold PState.maybe at h
  by_cases hc : st.curr.tag = tk.tag
  · rw [if_pos hc] at h
    cases hn : st.next with
    | error e => rw [hn] at h; cases h
    | ok p =>
      obtain ⟨t, s⟩ := p
      rw [hn] at h
      cases h
  · rw [if_neg hc] at h
    cases h
    rfl

theorem PState.consumeIdent_ok {st : PState} {name : String} {st' : PState}
    (h : st.consumeIdent = .ok (name, st')) :
    st.curr = Token.Ident name ∧ st'.measure < st.measure := by
  unfold PState.consumeIdent at h
  cases hn : st.next with
  | error e => rw [hn] at h; cases h
  | ok p =>
    obtain ⟨t, s⟩ := p
    rw [hn] at h
    obtain ⟨ht, hm⟩ := PState.next_ok hn
    cases t with
    | Ident nm =>
      cases h
      refine ⟨ht.symm, ?_⟩
      have : tokenWeight st.curr = 1 := by
        rw [← ht]; simp [tokenWeight, Token.tag]
      omega
    | Null => cases h
    | Num s => cases h
    | Text s => cases h
    | Create => cases h
    | Table => cases h
    | Select => cases h
    | From => cases h
    | Where => cases h
    | Update => cases h
    | Alter => cases h
    | Delete => cases h
    | Drop => cases h
    | Dot => cases h
    | Comma => cases h
    | Semicolon => cases h
    | LParen => cases h
    | RParen => cases h
    | Not => cases h
    | And => cases h
    | Or => cases h
    | Assign => cases h
    | Gt => cases h
    | Lt => cases h
    | Ge => cases h
    | Le => cases h
    | Add => cases h
    | Sub => cases h
    | Mul => cases h
    | Div => cases h
    | Insert => cases h
    | Into => cases h
    | Values => cases h
    | Set => cases h
    | Eq => cases h
    | Bool b => cases h
    | Eof => cases h

theorem pbind_ne_none {r : PRes α} {f : α → PState → PRes β}
    (h₁ : r ≠ none) (h₂ : ∀ a st, r = some (.ok (a, st)) → f a st ≠ none) :
    pbind r f ≠ none := by
  cases r with
  | none => exact absurd rfl h₁
  | some x =>
    cases x with
    | error e => simp [pbind]
    | ok p =>
      obtain ⟨a, st⟩ := p
      exact h₂ a st rfl

theorem ebind_ne_none {r : Except QueryErr (α × PState)} {f : α → PState → PRes β}
    (h : ∀ a st, r = .ok (a, st) → f a st ≠ none) : ebind r f ≠ none := by
  cases r with
  | error e => simp [ebind]
  | ok p =>
    obtain ⟨a, st⟩ := p
    exact h a st rfl

theorem qbind_ne_none {r : Except QueryErr PState} {f : PState → PRes β}
    (h : ∀ st, r = .ok st → f st ≠ none) : qbind r f ≠ none := by
  cases r with
  | error e => simp [qbind]
  | ok st => exact h st rfl

theorem pbind_ok {r : PRes α} {f : α → PState → PRes β} {b : β} {st' : PState}
    (h : pbind r f = some (.ok (b, st'))) :
    ∃ a st, r = some (.ok (a, st)) ∧ f a st = some (.ok (b, st')) := by
  cases r with
  | none => cases h
  | some x =>
    cases x with
    | error e =>
      injection h with h₂
      exact Except.noConfusion h₂
    | ok p =>
      obtain ⟨a, st⟩ := p
      exact ⟨a, st, rfl, h⟩

theorem ebind_ok {r : Except QueryErr (α × PState)} {f : α → PState → PRes β} {b : β}
    {st' : PState} (h : ebind r f = some (.ok (b, st'))) :
    ∃ a st, r = .ok (a, st) ∧ f a st = some (.ok (b, st')) := by
  cases r with
  | error e =>
    injection h with h₂
    exact Except.noConfusion h₂
  | ok p =>
    obtain ⟨a, st⟩ := p
    exact ⟨a, st, rfl, h⟩

theorem qbind_ok {r : Except QueryErr PState} {f : PState → PRes β} {b : β}
    {st' : PState} (h : qbind r f = some (.ok (b, st'))) :
    ∃ st, r = .ok st ∧ f st = some (.ok (b, st')) := by
  cases r with
  | error e =>
    injection h with h₂
    exact Except.noConfusion h₂
  | ok st => exact ⟨st, rfl, h⟩

theorem parseCreateDefsF_ne_none :
    ∀ (fuel : Nat) (acc : List (String × String)) (st : PState),
      16 * st.measure + 1 ≤ fuel → parseCreateDefsF fuel acc st ≠ none := by
  intro fuel
  induction fuel with
  | zero => intro acc st h; omega
  | succ f ih =>
    intro acc st h
    simp only [parseCreateDefsF]
    apply ebind_ne_none
    intro colName st₁ h₁
    obtain ⟨hc₁, hm₁⟩ := PState.consumeIdent_ok h₁
    apply ebind_ne_none
    intro colType st₂ h₂
    obtain ⟨hc₂, hm₂⟩ := PState.consumeIdent_ok h₂
    apply ebind_ne_none
    intro tok st₃ h₃
    obtain ⟨ht₃, hm₃⟩ := PState.next_ok h₃
    cases tok
    case Comma =>
      show parseCreateDefsF f (acc ++ [(colName, colType)]) st₃ ≠ none
      apply ih
      omega
    all_goals simp

theorem parseCreateDefsF_measure :
    ∀ (fuel : Nat) (acc : List (String × String)) (st : PState) res st',
      parseCreateDefsF fuel acc st = some (.ok (res, st')) →
      st'.measure ≤ st.measure := by
  intro fuel
  induction fuel with
  | zero => intro acc st res st' h; cases h
  | succ f ih =>
    intro acc st res st' h
    simp only [parseCreateDefsF] at h
    obtain ⟨colName, st₁, h₁, h⟩ := ebind_ok h
    obtain ⟨colType, st₂, h₂, h⟩ := ebind_ok h
    obtain ⟨tok, st₃, h₃, h⟩ := ebind_ok h
    obtain ⟨_, hm₁⟩ := PState.consumeIdent_ok h₁
    obtain ⟨_, hm₂⟩ := PState.consumeIdent_ok h₂
    obtain ⟨_, hm₃⟩ := PState.next_ok h₃
    cases tok
    case Comma =>
      have h' : parseCreateDefsF f (acc ++ [(colName, colType)]) st₃ =
          some (.ok (res, st')) := h
      have := ih _ _ _ _ h'
      omega
    case RParen =>
      have h' : some (Except.ok (acc ++ [(colName, colType)], st₃)) =
          some (Except.ok (res, st')) := h
      injection h' with h''
      injection h'' with h'''
      injection h''' with hres hst
      rw [← hst]
      omega
    all_goals exact Except.noConfusion (Option.some.inj h)

theorem parseInsertColsF_ne_none :
    ∀ (fuel : Nat) (acc : List String) (st : PState),
      16 * st.measure + 1 ≤ fuel → parseInsertColsF fuel acc st ≠ none := by
  intro fuel
  induction fuel with
  | zero => intro acc st h; omega
  | succ f ih =>
    intro acc st h
    simp only [parseInsertColsF]
    apply ebind_ne_none
    intro name st₁ h₁
    obtain ⟨hc₁, hm₁⟩ := PState.consumeIdent_ok h₁
    apply ebind_ne_none
    intro tok st₂ h₂
    obtain ⟨ht₂, hm₂⟩ := PState.next_ok h₂
    cases tok
    case Comma =>
      show parseInsertColsF f (acc ++ [name]) st₂ ≠ none
      apply ih
      omega
    all_goals simp

theorem parseInsertColsF_measure :
    ∀ (fuel : Nat) (acc : List String) (st : PState) res st',
      parseInsertColsF fuel acc st = some (.ok (res, st')) →
      st'.measure ≤ st.measure := by
  intro fuel
  induction fuel with
  | zero => intro acc st res st' h; cases h
  | succ f ih =>
    intro acc st res st' h
    simp only [parseInsertColsF] at h
    obtain ⟨name, st₁, h₁, h⟩ := ebind_ok h
    obtain ⟨tok, st₂, h₂, h⟩ := ebind_ok h
    obtain ⟨_, hm₁⟩ := PState.consumeIdent_ok h₁
    obtain ⟨_, hm₂⟩ := PState.next_ok h₂
    cases tok
    case Comma =>
      have h' : parseInsertColsF f (acc ++ [name]) st₂ = some (.ok (res, st')) := h
      have := ih _ _ _ _ h'
      omega
    case RParen =>
      have h' : some (Except.ok (acc ++ [name], st₂)) = some (Except.ok (res, st')) := h
      injection h' with h''
      injection h'' with h'''
      injection h''' with hres hst
      rw [← hst]
      omega
    all_goals exact Except.noConfusion (Option.some.inj h)

theorem parseSelectColsF_ne_none :
    ∀ (fuel : Nat) (acc : List String) (st : PState),
      16 * st.measure + 1 ≤ fuel → parseSelectColsF fuel acc st ≠ none := by
  intro fuel
  induction fuel with
  | zero => intro acc st h; omega
  | succ f ih =>
    intro acc st h
    simp only [parseSelectColsF]
    apply ebind_ne_none
    intro name st₁ h₁
    obtain ⟨hc₁, hm₁⟩ := PState.consumeIdent_ok h₁
    apply ebind_ne_none
    intro more st₂ h₂
    cases more
    · simp
    · have hm₂ := (PState.maybe_ok_true h₂).2
      show parseSelectColsF f (acc ++ [name]) st₂ ≠ none
      apply ih
      omega

theorem parseSelectColsF_measure :
    ∀ (fuel : Nat) (acc : List String) (st : PState) res st',
      parseSelectColsF fuel acc st = some (.ok (res, st')) →
      st'.measure ≤ st.measure := by
  intro fuel
  induction fuel with
  | zero => intro acc st res st' h; cases h
  | succ f ih =>
    intro acc st res st' h
    simp only [parseSelectColsF] at h
    obtain ⟨name, st₁, h₁, h⟩ := ebind_ok h
    obtain ⟨more, st₂, h₂, h⟩ := ebind_ok h
    obtain ⟨_, hm₁⟩ := PState.consumeIdent_ok h₁
    cases more
    · have hst := PState.maybe_ok_false h₂
      have h' : some (Except.ok (acc ++ [name], st₂)) = some (Except.ok (res, st')) := h
      injection h' with h''
      injection h'' with h'''
      injection h''' with hres hst'
      rw [← hst', hst]
      omega
    · have hm₂ := (PState.maybe_ok_true h₂).2
      have h' : parseSelectColsF f (acc ++ [name]) st₂ = some (.ok (res, st')) := h
      have := ih _ _ _ _ h'
      omega

theorem some_ok_inj {α : Type} {a b : α} {s t : PState}
    (h : (some (Except.ok (a, s)) : PRes α) = some (Except.ok (b, t))) :
    a = b ∧ s = t := by
  injection h with h'
  injection h' with h''
  injection h'' with h₁ h₂
  exact ⟨h₁, h₂⟩

theorem parseCreateF_ne_none {fuel : Nat} {st : PState}
    (h : 16 * st.measure + 1 ≤ fuel) : parseCreateF fuel st ≠ none := by
  unfold parseCreateF
  apply qbind_ne_none
  intro st₁ h₁
  have hm₁ := (PState.expect_ok h₁).2
  apply qbind_ne_none
  intro st₂ h₂
  have hm₂ := (PState.expect_ok h₂).2
  apply ebind_ne_none
  intro table st₃ h₃
  have hm₃ := (PState.consumeIdent_ok h₃).2
  apply qbind_ne_none
  intro st₄ h₄
  have hm₄ := (PState.expect_ok h₄).2
  apply pbind_ne_none
  · apply parseCreateDefsF_ne_none
    omega
  · intro res st₅ _
    simp

theorem parseCreateF_spec {fuel : Nat} {st : PState} {stmt : Stmt} {st' : PState}
    (h : parseCreateF fuel st = some (.ok (stmt, st'))) :
    st'.measure < st.measure ∧ stmtClausesOk stmt := by
  unfold parseCreateF at h
  obtain ⟨st₁, h₁, h⟩ := qbind_ok h
  have hm₁ := PState.expect_ok_lt h₁ (by decide)
  obtain ⟨st₂, h₂, h⟩ := qbind_ok h
  have hm₂ := (PState.expect_ok h₂).2
  obtain ⟨table, st₃, h₃, h⟩ := ebind_ok h
  have hm₃ := (PState.consumeIdent_ok h₃).2
  obtain ⟨st₄, h₄, h⟩ := qbind_ok h
  have hm₄ := (PState.expect_ok h₄).2
  obtain ⟨res, st₅, h₅, h⟩ := pbind_ok h
  have hm₅ := parseCreateDefsF_measure _ _ _ _ _ h₅
  obtain ⟨hstmt, hst⟩ := some_ok_inj h
  constructor
  · rw [← hst]; omega
  · rw [← hstmt]; exact Or.inl rfl

theorem parseDropF_spec {st : PState} {stmt : Stmt} {st' : PState}
    (h : parseDropF st = .ok (stmt, st')) :
    st'.measure < st.measure ∧ stmtClausesOk stmt := by
  unfold parseDropF at h
  split at h
  · exact Except.noConfusion h
  rename_i st₁ heq₁
  split at h
  · exact Except.noConfusion h
  rename_i st₂ heq₂
  split at h
  · exact Except.noConfusion h
  rename_i table st₃ heq₃
  injection h with h''
  injection h'' with hstmt hst
  have hm₁ := PState.expect_ok_lt heq₁ (by decide)
  have hm₂ := (PState.expect_ok heq₂).2
  have hm₃ := (PState.consumeIdent_ok heq₃).2
  constructor
  · rw [← hst]; omega
  · rw [← hstmt]; trivial

/-- Joint measure/shape postconditions of the mutual parser functions, by
induction on fuel: every successful sub-parse only consumes input (strictly,
for productions that always consume at least one token), and every produced
statement satisfies the clause-shape invariant. -/
theorem parserMeasure : ∀ fuel : Nat,
    (∀ st e st', parsePrimaryF fuel st = some (.ok (e, st')) →
      st'.measure < st.measure) ∧
    (∀ st e st', parseComparisonF fuel st = some (.ok (e, st')) →
      st'.measure < st.measure) ∧
    (∀ left st e st', parseAndRestF fuel left st = some (.ok (e, st')) →
      st'.measure ≤ st.measure) ∧
    (∀ st e st', parseLogicalAndF fuel st = some (.ok (e, st')) →
      st'.measure < st.measure) ∧
    (∀ left st e st', parseOrRestF fuel left st = some (.ok (e, st')) →
      st'.measure ≤ st.measure) ∧
    (∀ st e st', parseLogicalOrF fuel st = some (.ok (e, st')) →
      st'.measure < st.measure) ∧
    (∀ st e st', parseExprF fuel st = some (.ok (e, st')) →
      st'.measure < st.measure) ∧
    (∀ acc st res st', parseInsertValsF fuel acc st = some (.ok (res, st')) →
      st'.measure ≤ st.measure) ∧
    (∀ acc st res st', parseUpdateAssignsF fuel acc st = some (.ok (res, st')) →
      st'.measure ≤ st.measure) ∧
    (∀ st s st', parseInsertF fuel st = some (.ok (s, st')) →
      st'.measure < st.measure ∧ stmtClausesOk s) ∧
    (∀ st s st', parseSelectF fuel st = some (.ok (s, st')) →
      st'.measure < st.measure ∧ stmtClausesOk s) ∧
    (∀ st s st', parseUpdateF fuel st = some (.ok (s, st')) →
      st'.measure < st.measure ∧ stmtClausesOk s) ∧
    (∀ st s st', parseDeleteF fuel st = some (.ok (s, st')) →
      st'.measure < st.measure ∧ stmtClausesOk s) ∧
    (∀ st s st', parseStmtF fuel st = some (.ok (s, st')) →
      st'.measure < st.measure ∧ stmtClausesOk s) ∧
    (∀ terms st res st', parseBlockF fuel terms st = some (.ok (res, st')) →
      ∀ s ∈ res, stmtClausesOk s) := by
  intro fuel
  induction fuel with
  | zero =>
    refine ⟨?_, ?_, ?_, ?_, ?_, ?_, ?_, ?_, ?_, ?_, ?_, ?_, ?_, ?_, ?_⟩
    · intro st e st' h; exact Option.noConfusion h
    · intro st e st' h; exact Option.noConfusion h
    · intro left st e st' h; exact Option.noConfusion h
    · intro st e st' h; exact Option.noConfusion h
    · intro left st e st' h; exact Option.noConfusion h
    · intro st e st' h; exact Option.noConfusion h
    · intro st e st' h; exact Option.noConfusion h
    · intro acc st res st' h; exact Option.noConfusion h
    · intro acc st res st' h; exact Option.noConfusion h
    · intro st s st' h; exact Option.noConfusion h
    · intro st s st' h; exact Option.noConfusion h
    · intro st s st' h; exact Option.noConfusion h
    · intro st s st' h; exact Option.noConfusion h
    · intro st s st' h; exact Option.noConfusion h
    · intro terms st res st' h s hs; exact Option.noConfusion h
  | succ f ih =>
    obtain ⟨ihP, ihC, ihAR, ihA, ihOR, ihO, ihE, ihIV, ihUA, ihI, ihS, ihU, ihD,
      ihST, ihB⟩ := ih
    have hP : ∀ st e st', parsePrimaryF (f + 1) st = some (.ok (e, st')) →
        st'.measure < st.measure := by
      intro st e st' h
      simp only [parsePrimaryF] at h
      obtain ⟨tok, st₁, h₁, h⟩ := ebind_ok h
      obtain ⟨htok, hm₁⟩ := PState.next_ok h₁
      cases tok
      case Null =>
        obtain ⟨he, hst⟩ := some_ok_inj h
        have hw : tokenWeight st.curr = 1 := by rw [← htok]; decide
        rw [← hst]; omega
      case Bool b =>
        obtain ⟨he, hst⟩ := some_ok_inj h
        have hw : tokenWeight st.curr = 1 := by
          rw [← htok]; simp [tokenWeight, Token.tag]
        rw [← hst]; omega
      case Num n =>
        have hw : tokenWeight st.curr = 1 := by
          rw [← htok]; simp [tokenWeight, Token.tag]
        have h' : (match parseI64 n with
            | some i => some (Except.ok (Expr.Int i, st₁))
            | none =>
              match parseF64 n with
              | some q => some (Except.ok (Expr.Float q, st₁))
              | none =>
                some (Except.error (QueryErr.invalidExpr ("Invalid number: " ++ n)))) =
            (some (Except.ok (e, st')) : PRes Expr) := h
        cases hi : parseI64 n with
        | some i =>
          rw [hi] at h'
          obtain ⟨he, hst⟩ := some_ok_inj h'
          rw [← hst]; omega
        | none =>
          rw [hi] at h'
          cases hq : parseF64 n with
          | some q =>
            rw [hq] at h'
            obtain ⟨he, hst⟩ := some_ok_inj h'
            rw [← hst]; omega
          | none =>
            rw [hq] at h'
            exact Except.noConfusion (Option.some.inj h')
      case Text t =>
        obtain ⟨he, hst⟩ := some_ok_inj h
        have hw : tokenWeight st.curr = 1 := by
          rw [← htok]; simp [tokenWeight, Token.tag]
        rw [← hst]; omega
      case Ident i =>
        obtain ⟨he, hst⟩ := some_ok_inj h
        have hw : tokenWeight st.curr = 1 := by
          rw [← htok]; simp [tokenWeight, Token.tag]
        rw [← hst]; omega
      case LParen =>
        obtain ⟨e₂, st₂, h₂, h⟩ := pbind_ok h
        obtain ⟨st₃, h₃, h⟩ := qbind_ok h
        obtain ⟨he, hst⟩ := some_ok_inj h
        have hm₂ := ihE st₁ e₂ st₂ h₂
        have hm₃ := (PState.expect_ok h₃).2
        have hw : tokenWeight st.curr = 1 := by rw [← htok]; decide
        rw [← hst]; omega
      all_goals exact Except.noConfusion (Option.some.inj h)
    have hC : ∀ st e st', parseComparisonF (f + 1) st = some (.ok (e, st')) →
        st'.measure < st.measure := by
      intro st e st' h
      simp only [parseComparisonF] at h
      obtain ⟨left, st₁, h₁, h⟩ := pbind_ok h
      have hm₁ := ihP st left st₁ h₁
      cases hop : compOpStr st₁.curr with
      | none =>
        rw [hop] at h
        obtain ⟨he, hst⟩ := some_ok_inj h
        rw [← hst]; omega
      | some op =>
        rw [hop] at h
        obtain ⟨t₂, st₂, h₂, h⟩ := ebind_ok h
        obtain ⟨_, hm₂⟩ := PState.next_ok h₂
        obtain ⟨right, st₃, h₃, h⟩ := pbind_ok h
        have hm₃ := ihP st₂ right st₃ h₃
        obtain ⟨he, hst⟩ := some_ok_inj h
        rw [← hst]; omega
    have hAR : ∀ left st e st', parseAndRestF (f + 1) left st = some (.ok (e, st')) →
        st'.measure ≤ st.measure := by
      intro left st e st' h
      simp only [parseAndRestF] at h
      obtain ⟨more, st₁, h₁, h⟩ := ebind_ok h
      cases more
      · have hst₁ := PState.maybe_ok_false h₁
        obtain ⟨he, hst⟩ := some_ok_inj h
        rw [← hst, hst₁]
      · have hm₁ := (PState.maybe_ok_true h₁).2
        obtain ⟨right, st₂, h₂, h₃⟩ := pbind_ok h
        have hm₂ := ihC st₁ right st₂ h₂
        have hm₃ := ihAR _ st₂ e st' h₃
        omega
    have hA : ∀ st e st', parseLogicalAndF (f + 1) st = some (.ok (e, st')) →
        st'.measure < st.measure := by
      intro st e st' h
      simp only [parseLogicalAndF] at h
      obtain ⟨left, st₁, h₁, h₂⟩ := pbind_ok h
      have hm₁ := ihC st left st₁ h₁
      have hm₂ := ihAR left st₁ e st' h₂
      omega
    have hOR : ∀ left st e st', parseOrRestF (f + 1) left st = some (.ok (e, st')) →
        st'.measure ≤ st.measure := by
      intro left st e st' h
      simp only [parseOrRestF] at h
      obtain ⟨more, st₁, h₁, h⟩ := ebind_ok h
      cases more
      · have hst₁ := PState.maybe_ok_false h₁
        obtain ⟨he, hst⟩ := some_ok_inj h
        rw [← hst, hst₁]
      · have hm₁ := (PState.maybe_ok_true h₁).2
        obtain ⟨right, st₂, h₂, h₃⟩ := pbind_ok h
        have hm₂ := ihA st₁ right st₂ h₂
        have hm₃ := ihOR _ st₂ e st' h₃
        omega
    have hO : ∀ st e st', parseLogicalOrF (f + 1) st = some (.ok (e, st')) →
        st'.measure < st.measure := by
      intro st e st' h
      simp only [parseLogicalOrF] at h
      obtain ⟨left, st₁, h₁, h₂⟩ := pbind_ok h
      have hm₁ := ihA st left st₁ h₁
      have hm₂ := ihOR left st₁ e st' h₂
      omega
    have hE : ∀ st e st', parseExprF (f + 1) st = some (.ok (e, st')) →
        st'.measure < st.measure := by
      intro st e st' h
      simp only [parseExprF] at h
      exact ihO st e st' h
    have hIV : ∀ acc st res st', parseInsertValsF (f + 1) acc st = some (.ok (res, st')) →
        st'.measure ≤ st.measure := by
      intro acc st res st' h
      simp only [parseInsertValsF] at h
      obtain ⟨e, st₁, h₁, h⟩ := pbind_ok h
      have hm₁ := ihE st e st₁ h₁
      obtain ⟨tok, st₂, h₂, h⟩ := ebind_ok h
      obtain ⟨_, hm₂⟩ := PState.next_ok h₂
      cases tok
      case Comma =>
        have h' : parseInsertValsF f (acc ++ [e]) st₂ = some (.ok (res, st')) := h
        have := ihIV _ st₂ res st' h'
        omega
      case RParen =>
        obtain ⟨hres, hst⟩ := some_ok_inj h
        rw [← hst]; omega
      all_goals exact Except.noConfusion (Option.some.inj h)
    have hUA : ∀ acc st res st',
        parseUpdateAssignsF (f + 1) acc st = some (.ok (res, st')) →
        st'.measure ≤ st.measure := by
      intro acc st res st' h
      simp only [parseUpdateAssignsF] at h
      obtain ⟨col, st₁, h₁, h⟩ := ebind_ok h
      have hm₁ := (PState.consumeIdent_ok h₁).2
      obtain ⟨st₂, h₂, h⟩ := qbind_ok h
      have hm₂ := (PState.expect_ok h₂).2
      obtain ⟨val, st₃, h₃, h⟩ := pbind_ok h
      have hm₃ := ihE st₂ val st₃ h₃
      obtain ⟨more, st₄, h₄, h⟩ := ebind_ok h
      cases more
      · have hst₄ := PState.maybe_ok_false h₄
        obtain ⟨hres, hst⟩ := some_ok_inj h
        rw [← hst, hst₄]; omega
      · have hm₄ := (PState.maybe_ok_true h₄).2
        have h' : parseUpdateAssignsF f (acc ++ [(col, val)]) st₄ =
            some (.ok (res, st')) := h
        have := ihUA _ st₄ res st' h'
        omega
    have hI : ∀ st s st', parseInsertF (f + 1) st = some (.ok (s, st')) →
        st'.measure < st.measure ∧ stmtClausesOk s := by
      intro st s st' h
      simp only [parseInsertF] at h
      obtain ⟨st₁, h₁, h⟩ := qbind_ok h
      have hm₁ := PState.expect_ok_lt h₁ (by decide)
      obtain ⟨st₂, h₂, h⟩ := qbind_ok h
      have hm₂ := (PState.expect_ok h₂).2
      obtain ⟨table, st₃, h₃, h⟩ := ebind_ok h
      have hm₃ := (PState.consumeIdent_ok h₃).2
      obtain ⟨hasCols, st₄, h₄, h⟩ := ebind_ok h
      have hm₄ : st₄.measure ≤ st₃.measure := by
        cases hasCols
        · rw [PState.maybe_ok_false h₄]
        · have := (PState.maybe_ok_true h₄).2
          omega
      obtain ⟨columns, st₅, h₅, h⟩ := pbind_ok h
      have hm₅ : st₅.measure ≤ st₄.measure := by
        cases hasCols
        · obtain ⟨hcl, hst'⟩ := some_ok_inj h₅
          rw [← hst']
        · exact parseInsertColsF_measure _ _ _ _ _ h₅
      obtain ⟨st₆, h₆, h⟩ := qbind_ok h
      have hm₆ := (PState.expect_ok h₆).2
      obtain ⟨st₇, h₇, h⟩ := qbind_ok h
      have hm₇ := (PState.expect_ok h₇).2
      obtain ⟨values, st₈, h₈, h⟩ := pbind_ok h
      have hm₈ := ihIV _ st₇ values st₈ h₈
      obtain ⟨hstmt, hst⟩ := some_ok_inj h
      constructor
      · rw [← hst]; omega
      · rw [← hstmt]; exact Or.inl rfl
    have hS : ∀ st s st', parseSelectF (f + 1) st = some (.ok (s, st')) →
        st'.measure < st.measure ∧ stmtClausesOk s := by
      intro st s st' h
      simp only [parseSelectF] at h
      obtain ⟨st₁, h₁, h⟩ := qbind_ok h
      have hm₁ := PState.expect_ok_lt h₁ (by decide)
      obtain ⟨columns, st₂, h₂, h⟩ := pbind_ok h
      have hm₂ : st₂.measure ≤ st₁.measure := by
        by_cases hmul : st₁.curr = Token.Mul
        · rw [if_pos hmul] at h₂
          obtain ⟨t, st₂', h₂', h₂''⟩ := ebind_ok h₂
          obtain ⟨he, hst'⟩ := some_ok_inj h₂''
          rw [← hst']
          have := (PState.next_ok h₂').2
          omega
        · rw [if_neg hmul] at h₂
          exact parseSelectColsF_measure _ _ _ _ _ h₂
      obtain ⟨st₃, h₃, h⟩ := qbind_ok h
      have hm₃ := (PState.expect_ok h₃).2
      obtain ⟨table, st₄, h₄, h⟩ := ebind_ok h
      have hm₄ := (PState.consumeIdent_ok h₄).2
      obtain ⟨hasWhere, st₅, h₅, h⟩ := ebind_ok h
      obtain ⟨clauses, st₆, h₆, h⟩ := pbind_ok h
      obtain ⟨hstmt, hst⟩ := some_ok_inj h
      cases hasWhere
      · have hst₅ := PState.maybe_ok_false h₅
        obtain ⟨hcl, hst₆⟩ := some_ok_inj h₆
        constructor
        · rw [← hst, ← hst₆, hst₅]; omega
        · rw [← hstmt, ← hcl]; exact Or.inl rfl
      · have hm₅ := (PState.maybe_ok_true h₅).2
        obtain ⟨cond, st₆', h₆', h₆''⟩ := pbind_ok h₆
        have hm₆ := ihE st₅ cond st₆' h₆'
        obtain ⟨hcl, hst₆⟩ := some_ok_inj h₆''
        constructor
        · rw [← hst, ← hst₆]; omega
        · rw [← hstmt, ← hcl]; exact Or.inr ⟨cond, rfl⟩
    have hU : ∀ st s st', parseUpdateF (f + 1) st = some (.ok (s, st')) →
        st'.measure < st.measure ∧ stmtClausesOk s := by
      intro st s st' h
      simp only [parseUpdateF] at h
      obtain ⟨st₁, h₁, h⟩ := qbind_ok h
      have hm₁ := PState.expect_ok_lt h₁ (by decide)
      obtain ⟨table, st₂, h₂, h⟩ := ebind_ok h
      have hm₂ := (PState.consumeIdent_ok h₂).2
      obtain ⟨st₃, h₃, h⟩ := qbind_ok h
      have hm₃ := (PState.expect_ok h₃).2
      obtain ⟨assigns, st₄, h₄, h⟩ := pbind_ok h
      have hm₄ := ihUA _ st₃ assigns st₄ h₄
      obtain ⟨hasWhere, st₅, h₅, h⟩ := ebind_ok h
      obtain ⟨clauses, st₆, h₆, h⟩ := pbind_ok h
      obtain ⟨hstmt, hst⟩ := some_ok_inj h
      cases hasWhere
      · have hst₅ := PState.maybe_ok_false h₅
        obtain ⟨hcl, hst₆⟩ := some_ok_inj h₆
        constructor
        · rw [← hst, ← hst₆, hst₅]; omega
        · rw [← hstmt, ← hcl]; exact Or.inl rfl
      · have hm₅ := (PState.maybe_ok_true h₅).2
        obtain ⟨cond, st₆', h₆', h₆''⟩ := pbind_ok h₆
        have hm₆ := ihE st₅ cond st₆' h₆'
        obtain ⟨hcl, hst₆⟩ := some_ok_inj h₆''
        constructor
        · rw [← hst, ← hst₆]; omega
        · rw [← hstmt, ← hcl]; exact Or.inr ⟨cond, rfl⟩
    have hD : ∀ st s st', parseDeleteF (f + 1) st = some (.ok (s, st')) →
        st'.measure < st.measure ∧ stmtClausesOk s := by
      intro st s st' h
      simp only [parseDeleteF] at h
      obtain ⟨st₁, h₁, h⟩ := qbind_ok h
      have hm₁ := PState.expect_ok_lt h₁ (by decide)
      obtain ⟨st₂, h₂, h⟩ := qbind_ok h
      have hm₂ := (PState.expect_ok h₂).2
      obtain ⟨table, st₃, h₃, h⟩ := ebind_ok h
      have hm₃ := (PState.consumeIdent_ok h₃).2
      obtain ⟨hasWhere, st₄, h₄, h⟩ := ebind_ok h
      obtain ⟨clauses, st₅, h₅, h⟩ := pbind_ok h
      obtain ⟨hstmt, hst⟩ := some_ok_inj h
      cases hasWhere
      · have hst₄ := PState.maybe_ok_false h₄
        obtain ⟨hcl, hst₅⟩ := some_ok_inj h₅
        constructor
        · rw [← hst, ← hst₅, hst₄]; omega
        · rw [← hstmt, ← hcl]; exact Or.inl rfl
      · have hm₄ := (PState.maybe_ok_true h₄).2
        obtain ⟨cond, st₅', h₅', h₅''⟩ := pbind_ok h₅
        have hm₅ := ihE st₄ cond st₅' h₅'
        obtain ⟨hcl, hst₅⟩ := some_ok_inj h₅''
        constructor
        · rw [← hst, ← hst₅]; omega
        · rw [← hstmt, ← hcl]; exact Or.inr ⟨cond, rfl⟩
    have hST : ∀ st s st', parseStmtF (f + 1) st = some (.ok (s, st')) →
        st'.measure < st.measure ∧ stmtClausesOk s := by
      intro st s st' h
      simp only [parseStmtF] at h
      revert h
      cases hcur : st.curr
      all_goals intro h
      case Create => exact parseCreateF_spec h
      case Insert => exact ihI st s st' h
      case Select => exact ihS st s st' h
      case Update => exact ihU st s st' h
      case Delete => exact ihD st s st' h
      case Drop =>
        have h' : parseDropF st = .ok (s, st') := Option.some.inj h
        exact parseDropF_spec h'
      all_goals exact Except.noConfusion (Option.some.inj h)
    have hB : ∀ terms st res st', parseBlockF (f + 1) terms st = some (.ok (res, st')) →
        ∀ s ∈ res, stmtClausesOk s := by
      intro terms st res st' h s hs
      simp only [parseBlockF] at h
      by_cases hterm : terms.any (fun t => t.tag = st.curr.tag) = true
      · rw [if_pos hterm] at h
        obtain ⟨hres, hst⟩ := some_ok_inj h
        rw [← hres] at hs
        cases hs
      · rw [if_neg hterm] at h
        by_cases hsemi : st.curr = Token.Semicolon
        · rw [if_pos hsemi] at h
          obtain ⟨t₁, st₁, h₁, h⟩ := ebind_ok h
          exact ihB terms st₁ res st' h s hs
        · rw [if_neg hsemi] at h
          obtain ⟨stmt, st₁, h₁, h⟩ := pbind_ok h
          obtain ⟨stmts, st₂, h₂, h⟩ := pbind_ok h
          have hshape := (ihST st stmt st₁ h₁).2
          have hrest := ihB terms st₁ stmts st₂ h₂
          obtain ⟨hres, hst⟩ := some_ok_inj h
          rw [← hres] at hs
          cases hs with
          | head => exact hshape
          | tail _ hmem => exact hrest s hmem
    exact ⟨hP, hC, hAR, hA, hOR, hO, hE, hIV, hUA, hI, hS, hU, hD, hST, hB⟩

/-- Joint fuel-sufficiency of the mutual parser functions, by induction on
fuel: with a budget of sixteen steps per unit of the state measure (plus a
per-production constant), no parser function runs out of fuel. -/
theorem parserFuel : ∀ fuel : Nat,
    (∀ st, 16 * st.measure + 1 ≤ fuel → parsePrimaryF fuel st ≠ none) ∧
    (∀ st, 16 * st.measure + 2 ≤ fuel → parseComparisonF fuel st ≠ none) ∧
    (∀ left st, 16 * st.measure + 3 ≤ fuel → parseAndRestF fuel left st ≠ none) ∧
    (∀ st, 16 * st.measure + 3 ≤ fuel → parseLogicalAndF fuel st ≠ none) ∧
    (∀ left st, 16 * st.measure + 4 ≤ fuel → parseOrRestF fuel left st ≠ none) ∧
    (∀ st, 16 * st.measure + 4 ≤ fuel → parseLogicalOrF fuel st ≠ none) ∧
    (∀ st, 16 * st.measure + 5 ≤ fuel → parseExprF fuel st ≠ none) ∧
    (∀ acc st, 16 * st.measure + 6 ≤ fuel → parseInsertValsF fuel acc st ≠ none) ∧
    (∀ acc st, 16 * st.measure + 6 ≤ fuel → parseUpdateAssignsF fuel acc st ≠ none) ∧
    (∀ st, 16 * st.measure + 7 ≤ fuel → parseInsertF fuel st ≠ none) ∧
    (∀ st, 16 * st.measure + 7 ≤ fuel → parseSelectF fuel st ≠ none) ∧
    (∀ st, 16 * st.measure + 7 ≤ fuel → parseUpdateF fuel st ≠ none) ∧
    (∀ st, 16 * st.measure + 7 ≤ fuel → parseDeleteF fuel st ≠ none) ∧
    (∀ st, 16 * st.measure + 8 ≤ fuel → parseStmtF fuel st ≠ none) ∧
    (∀ terms st, 16 * st.measure + 9 ≤ fuel → parseBlockF fuel terms st ≠ none) := by
  intro fuel
  induction fuel with
  | zero =>
    refine ⟨?_, ?_, ?_, ?_, ?_, ?_, ?_, ?_, ?_, ?_, ?_, ?_, ?_, ?_, ?_⟩
    · intro st hf; omega
    · intro st hf; omega
    · intro left st hf; omega
    · intro st hf; omega
    · intro left st hf; omega
    · intro st hf; omega
    · intro st hf; omega
    · intro acc st hf; omega
    · intro acc st hf; omega
    · intro st hf; omega
    · intro st hf; omega
    · intro st hf; omega
    · intro st hf; omega
    · intro st hf; omega
    · intro terms st hf; omega
  | succ f ih =>
    obtain ⟨ihP, ihC, ihAR, ihA, ihOR, ihO, ihE, ihIV, ihUA, ihI, ihS, ihU, ihD,
      ihST, ihB⟩ := ih
    obtain ⟨mP, mC, mAR, mA, mOR, mO, mE, mIV, mUA, mI, mS, mU, mD, mST, mB⟩ :=
      parserMeasure f
    have hP : ∀ st, 16 * st.measure + 1 ≤ f + 1 → parsePrimaryF (f + 1) st ≠ none := by
      intro st hf
      simp only [parsePrimaryF]
      apply ebind_ne_none
      intro tok st₁ h₁
      obtain ⟨htok, hm₁⟩ := PState.next_ok h₁
      cases tok
      case LParen =>
        show (pbind (parseExprF f st₁) fun e st₂ =>
          qbind (st₂.expect Token.RParen) fun st₃ => some (.ok (e, st₃))) ≠ none
        apply pbind_ne_none
        · apply ihE
          have hw : tokenWeight st.curr = 1 := by rw [← htok]; decide
          omega
        · intro e st₂ h₂
          apply qbind_ne_none
          intro st₃ h₃
          simp
      case Num n =>
        show (match parseI64 n with
          | some i => some (Except.ok (Expr.Int i, st₁))
          | none =>
            match parseF64 n with
            | some q => some (Except.ok (Expr.Float q, st₁))
            | none =>
              some (Except.error (QueryErr.invalidExpr ("Invalid number: " ++ n)))) ≠
          (none : PRes Expr)
        cases parseI64 n with
        | some i => simp
        | none => cases parseF64 n <;> simp
      all_goals simp
    have hC : ∀ st, 16 * st.measure + 2 ≤ f + 1 → parseComparisonF (f + 1) st ≠ none := by
      intro st hf
      simp only [parseComparisonF]
      apply pbind_ne_none
      · apply ihP; omega
      · intro left st₁ h₁
        have hm₁ := mP st left st₁ h₁
        cases compOpStr st₁.curr with
        | none => simp
        | some op =>
          show (ebind st₁.next fun _ st₂ =>
            pbind (parsePrimaryF f st₂) fun right st₃ =>
              some (.ok (Expr.Binary op left right, st₃))) ≠ none
          apply ebind_ne_none
          intro t₂ st₂ h₂
          obtain ⟨_, hm₂⟩ := PState.next_ok h₂
          apply pbind_ne_none
          · apply ihP; omega
          · intro right st₃ h₃; simp
    have hAR : ∀ left st, 16 * st.measure + 3 ≤ f + 1 →
        parseAndRestF (f + 1) left st ≠ none := by
      intro left st hf
      simp only [parseAndRestF]
      apply ebind_ne_none
      intro more st₁ h₁
      cases more
      · simp
      · have hm₁ := PState.maybe_ok_true_lt h₁ (by decide)
        show (pbind (parseComparisonF f st₁) fun right st₂ =>
          parseAndRestF f (Expr.Binary "AND" left right) st₂) ≠ none
        apply pbind_ne_none
        · apply ihC; omega
        · intro right st₂ h₂
          have hm₂ := mC st₁ right st₂ h₂
          apply ihAR; omega
    have hA : ∀ st, 16 * st.measure + 3 ≤ f + 1 → parseLogicalAndF (f + 1) st ≠ none := by
      intro st hf
      simp only [parseLogicalAndF]
      apply pbind_ne_none
      · apply ihC; omega
      · intro left st₁ h₁
        have hm₁ := mC st left st₁ h₁
        apply ihAR; omega
    have hOR : ∀ left st, 16 * st.measure + 4 ≤ f + 1 →
        parseOrRestF (f + 1) left st ≠ none := by
      intro left st hf
      simp only [parseOrRestF]
      apply ebind_ne_none
      intro more st₁ h₁
      cases more
      · simp
      · have hm₁ := PState.maybe_ok_true_lt h₁ (by decide)
        show (pbind (parseLogicalAndF f st₁) fun right st₂ =>
          parseOrRestF f (Expr.Binary "OR" left right) st₂) ≠ none
        apply pbind_ne_none
        · apply ihA; omega
        · intro right st₂ h₂
          have hm₂ := mA st₁ right st₂ h₂
          apply ihOR; omega
    have hO : ∀ st, 16 * st.measure + 4 ≤ f + 1 → parseLogicalOrF (f + 1) st ≠ none := by
      intro st hf
      simp only [parseLogicalOrF]
      apply pbind_ne_none
      · apply ihA; omega
      · intro left st₁ h₁
        have hm₁ := mA st left st₁ h₁
        apply ihOR; omega
    have hE : ∀ st, 16 * st.measure + 5 ≤ f + 1 → parseExprF (f + 1) st ≠ none := by
      intro st hf
      simp only [parseExprF]
      apply ihO; omega
    have hIV : ∀ acc st, 16 * st.measure + 6 ≤ f + 1 →
        parseInsertValsF (f + 1) acc st ≠ none := by
      intro acc st hf
      simp only [parseInsertValsF]
      apply pbind_ne_none
      · apply ihE; omega
      · intro e st₁ h₁
        have hm₁ := mE st e st₁ h₁
        apply ebind_ne_none
        intro tok st₂ h₂
        obtain ⟨_, hm₂⟩ := PState.next_ok h₂
        cases tok
        case Comma =>
          show parseInsertValsF f (acc ++ [e]) st₂ ≠ none
          apply ihIV; omega
        all_goals simp
    have hUA : ∀ acc st, 16 * st.measure + 6 ≤ f + 1 →
        parseUpdateAssignsF (f + 1) acc st ≠ none := by
      intro acc st hf
      simp only [parseUpdateAssignsF]
      apply ebind_ne_none
      intro col st₁ h₁
      have hm₁ := (PState.consumeIdent_ok h₁).2
      apply qbind_ne_none
      intro st₂ h₂
      have hm₂ := (PState.expect_ok h₂).2
      apply pbind_ne_none
      · apply ihE; omega
      · intro val st₃ h₃
        have hm₃ := mE st₂ val st₃ h₃
        apply ebind_ne_none
        intro more st₄ h₄
        cases more
        · simp
        · have hm₄ := (PState.maybe_ok_true h₄).2
          show parseUpdateAssignsF f (acc ++ [(col, val)]) st₄ ≠ none
          apply ihUA; omega
    have hI : ∀ st, 16 * st.measure + 7 ≤ f + 1 → parseInsertF (f + 1) st ≠ none := by
      intro st hf
      simp only [parseInsertF]
      apply qbind_ne_none
      intro st₁ h₁
      have hm₁ := (PState.expect_ok h₁).2
      apply qbind_ne_none
      intro st₂ h₂
      have hm₂ := (PState.expect_ok h₂).2
      apply ebind_ne_none
      intro table st₃ h₃
      have hm₃ := (PState.consumeIdent_ok h₃).2
      apply ebind_ne_none
      intro hasCols st₄ h₄
      have hm₄ : st₄.measure ≤ st₃.measure := by
        cases hasCols
        · rw [PState.maybe_ok_false h₄]
        · have := (PState.maybe_ok_true h₄).2; omega
      apply pbind_ne_none
      · cases hasCols
        · simp
        · show parseInsertColsF f [] st₄ ≠ none
          apply parseInsertColsF_ne_none
          omega
      · intro columns st₅ h₅
        have hm₅ : st₅.measure ≤ st₄.measure := by
          cases hasCols
          · obtain ⟨hcl, hst'⟩ := some_ok_inj h₅
            rw [← hst']
          · exact parseInsertColsF_measure _ _ _ _ _ h₅
        apply qbind_ne_none
        intro st₆ h₆
        have hm₆ := (PState.expect_ok h₆).2
        apply qbind_ne_none
        intro st₇ h₇
        have hm₇ := (PState.expect_ok h₇).2
        apply pbind_ne_none
        · apply ihIV; omega
        · intro values st₈ h₈; simp
    have hS : ∀ st, 16 * st.measure + 7 ≤ f + 1 → parseSelectF (f + 1) st ≠ none := by
      intro st hf
      simp only [parseSelectF]
      apply qbind_ne_none
      intro st₁ h₁
      have hm₁ := PState.expect_ok_lt h₁ (by decide)
      apply pbind_ne_none
      · by_cases hmul : st₁.curr = Token.Mul
        · rw [if_pos hmul]
          apply ebind_ne_none
          intro t st₂ h₂
          simp
        · rw [if_neg hmul]
          apply parseSelectColsF_ne_none
          omega
      · intro columns st₂ h₂
        have hm₂ : st₂.measure ≤ st₁.measure := by
          by_cases hmul : st₁.curr = Token.Mul
          · rw [if_pos hmul] at h₂
            obtain ⟨t, st₂', h₂', h₂''⟩ := ebind_ok h₂
            obtain ⟨he, hst'⟩ := some_ok_inj h₂''
            rw [← hst']
            have := (PState.next_ok h₂').2
            omega
          · rw [if_neg hmul] at h₂
            exact parseSelectColsF_measure _ _ _ _ _ h₂
        apply qbind_ne_none
        intro st₃ h₃
        have hm₃ := (PState.expect_ok h₃).2
        apply ebind_ne_none
        intro table st₄ h₄
        have hm₄ := (PState.consumeIdent_ok h₄).2
        apply ebind_ne_none
        intro hasWhere st₅ h₅
        have hm₅ : st₅.measure ≤ st₄.measure := by
          cases hasWhere
          · rw [PState.maybe_ok_false h₅]
          · have := (PState.maybe_ok_true h₅).2; omega
        apply pbind_ne_none
        · cases hasWhere
          · simp
          · show (pbind (parseExprF f st₅) fun cond st₆ =>
              some (.ok ([Clause.Where cond], st₆))) ≠ none
            apply pbind_ne_none
            · apply ihE; omega
            · intro cond st₆ h₆; simp
        · intro clauses st₆ h₆; simp
    have hU : ∀ st, 16 * st.measure + 7 ≤ f + 1 → parseUpdateF (f + 1) st ≠ none := by
      intro st hf
      simp only [parseUpdateF]
      apply qbind_ne_none
      intro st₁ h₁
      have hm₁ := PState.expect_ok_lt h₁ (by decide)
      apply ebind_ne_none
      intro table st₂ h₂
      have hm₂ := (PState.consumeIdent_ok h₂).2
      apply qbind_ne_none
      intro st₃ h₃
      have hm₃ := (PState.expect_ok h₃).2
      apply pbind_ne_none
      · apply ihUA; omega
      · intro assigns st₄ h₄
        have hm₄ := mUA _ st₃ assigns st₄ h₄
        apply ebind_ne_none
        intro hasWhere st₅ h₅
        have hm₅ : st₅.measure ≤ st₄.measure := by
          cases hasWhere
          · rw [PState.maybe_ok_false h₅]
          · have := (PState.maybe_ok_true h₅).2; omega
        apply pbind_ne_none
        · cases hasWhere
          · simp
          · show (pbind (parseExprF f st₅) fun cond st₆ =>
              some (.ok ([Clause.Where cond], st₆))) ≠ none
            apply pbind_ne_none
            · apply ihE; omega
            · intro cond st₆ h₆; simp
        · intro clauses st₆ h₆; simp
    have hD : ∀ st, 16 * st.measure + 7 ≤ f + 1 → parseDeleteF (f + 1) st ≠ none := by
      intro st hf
      simp only [parseDeleteF]
      apply qbind_ne_none
      intro st₁ h₁
      have hm₁ := PState.expect_ok_lt h₁ (by decide)
      apply qbind_ne_none
      intro st₂ h₂
      have hm₂ := (PState.expect_ok h₂).2
      apply ebind_ne_none
      intro table st₃ h₃
      have hm₃ := (PState.consumeIdent_ok h₃).2
      apply ebind_ne_none
      intro hasWhere st₄ h₄
      have hm₄ : st₄.measure ≤ st₃.measure := by
        cases hasWhere
        · rw [PState.maybe_ok_false h₄]
        · have := (PState.maybe_ok_true h₄).2; omega
      apply pbind_ne_none
      · cases hasWhere
        · simp
        · show (pbind (parseExprF f st₄) fun cond st₅ =>
            some (.ok ([Clause.Where cond], st₅))) ≠ none
          apply pbind_ne_none
          · apply ihE; omega
          · intro cond st₅ h₅; simp
      · intro clauses st₅ h₅; simp
    have hST : ∀ st, 16 * st.measure + 8 ≤ f + 1 → parseStmtF (f + 1) st ≠ none := by
      intro st hf
      simp only [parseStmtF]
      cases st.curr
      case Create =>
        show parseCreateF f st ≠ none
        apply parseCreateF_ne_none; omega
      case Insert =>
        show parseInsertF f st ≠ none
        apply ihI; omega
      case Select =>
        show parseSelectF f st ≠ none
        apply ihS; omega
      case Update =>
        show parseUpdateF f st ≠ none
        apply ihU; omega
      case Delete =>
        show parseDeleteF f st ≠ none
        apply ihD; omega
      case Drop =>
        show some (parseDropF st) ≠ none
        simp
      all_goals simp
    have hB : ∀ terms st, 16 * st.measure + 9 ≤ f + 1 →
        parseBlockF (f + 1) terms st ≠ none := by
      intro terms st hf
      simp only [parseBlockF]
      by_cases hterm : terms.any (fun t => t.tag = st.curr.tag) = true
      · rw [if_pos hterm]; simp
      · rw [if_neg hterm]
        by_cases hsemi : st.curr = Token.Semicolon
        · rw [if_pos hsemi]
          apply ebind_ne_none
          intro t₁ st₁ h₁
          obtain ⟨_, hm₁⟩ := PState.next_ok h₁
          have hw : tokenWeight st.curr = 1 := by rw [hsemi]; decide
          apply ihB; omega
        · rw [if_neg hsemi]
          apply pbind_ne_none
          · apply ihST; omega
          · intro stmt st₁ h₁
            have hm₁ := (mST st stmt st₁ h₁).1
            apply pbind_ne_none
            · apply ihB; omega
            · intro stmts st₂ h₂; simp
    exact ⟨hP, hC, hAR, hA, hOR, hO, hE, hIV, hUA, hI, hS, hU, hD, hST, hB⟩

theorem parse_ne_none (input : String) : parse input ≠ none := by
  unfold parse
  cases hmk : mkParser input with
  | error e => simp
  | ok st =>
    have hnn := (parserFuel st.fuelBound).2.2.2.2.2.2.2.2.2.2.2.2.2.2 [Token.Eof] st
      (by simp only [PState.fuelBound]; omega)
    show (match parseBlockF st.fuelBound [Token.Eof] st with
      | none => none
      | some (Except.error e) => some (Except.error e)
      | some (Except.ok (stmts, _)) => some (Except.ok stmts) : Option (Except QueryErr (List Stmt))) ≠ none
    cases hblk : parseBlockF st.fuelBound [Token.Eof] st with
    | none => exact absurd hblk hnn
    | some r => cases r with
      | error e => simp
      | ok p => obtain ⟨stmts, st'⟩ := p; simp

/-- C1: parsing the input `INSERT INTO users (id, name) VALUES (1, 'Alice')`
via `parse_stmt` succeeds and returns `Stmt::Insert` with table `users`,
columns `Columns(["id","name"])`, values `Values([Int(1), Text("Alice")])`
and an empty clauses sequence. -/
theorem claim_C1 :
    parseStmtTop "INSERT INTO users (id, name) VALUES (1, 'Alice')" =
      some (.ok (Stmt.Insert "users" (Clause.Columns ["id", "name"])
        (Clause.Values [Expr.Int 1, Expr.Text "Alice"]) [])) := by
  decide

/-- C2: for every input, `parse` returns either a sequence of statements or
a typed error that is one of the three kinds (lexical, unexpected-token,
invalid-expression); in the embedding `parse` is a total function into this
sum, so no panic and no partial output is possible: a failing parse returns
an error and no statement list. -/
theorem claim_C2 : ∀ input : String,
    (∃ stmts, parse input = some (.ok stmts)) ∨
    (∃ e, parse input = some (.error e) ∧
      ((∃ m, e = QueryErr.lexError m) ∨
       (∃ x y, e = QueryErr.unexpectedToken x y) ∨
       (∃ m, e = QueryErr.invalidExpr m))) := by
  intro input
  cases hp : parse input with
  | none => exact absurd hp (parse_ne_none input)
  | some r =>
    cases r with
    | ok stmts => exact Or.inl ⟨stmts, rfl⟩
    | error e =>
      refine Or.inr ⟨e, rfl, ?_⟩
      cases e with
      | lexError m => exact Or.inl ⟨m, rfl⟩
      | unexpectedToken x y => exact Or.inr (Or.inl ⟨x, y, rfl⟩)
      | invalidExpr m => exact Or.inr (Or.inr ⟨m, rfl⟩)

/-- C3: bare `;` separators are skipped — leading, trailing and consecutive —
producing no empty statements and no errors: `DROP TABLE t;;;` parses the
same as `DROP TABLE t` (one Drop statement), and `;;SELECT * FROM t;;`
yields exactly one Select statement. -/
theorem claim_C3 :
    parse "DROP TABLE t;;;" = parse "DROP TABLE t" ∧
    parse "DROP TABLE t" = some (.ok [Stmt.Drop "t"]) ∧
    parse ";;SELECT * FROM t;;" =
      some (.ok [Stmt.Select "t" (Clause.Columns ["*"]) []]) := by
  refine ⟨?_, ?_, ?_⟩ <;> decide

/-- C4: AND folds strictly left-associatively into nested Binary nodes
labeled "AND": for every chain of three comparisons joined by AND tokens,
`parse_logical_and` produces `AND(AND(c₁, c₂), c₃)`, not a right-nested
tree. -/
theorem claim_C4 :
    ∀ (k : Nat) (st₀ st₁ st₂ st₃ st₄ st₅ st₆ : PState) (c₁ c₂ c₃ : Expr),
    parseComparisonF (k + 3) st₀ = some (.ok (c₁, st₁)) →
    st₁.maybe Token.And = .ok (true, st₂) →
    parseComparisonF (k + 2) st₂ = some (.ok (c₂, st₃)) →
    st₃.maybe Token.And = .ok (true, st₄) →
    parseComparisonF (k + 1) st₄ = some (.ok (c₃, st₅)) →
    st₅.maybe Token.And = .ok (false, st₆) →
    parseLogicalAndF (k + 4) st₀ =
      some (.ok (Expr.Binary "AND" (Expr.Binary "AND" c₁ c₂) c₃, st₆)) := by
  intro k st₀ st₁ st₂ st₃ st₄ st₅ st₆ c₁ c₂ c₃ h1 h2 h3 h4 h5 h6
  show (pbind (parseComparisonF (k + 3) st₀) fun left st =>
    parseAndRestF (k + 3) left st) = _
  rw [h1]
  show (ebind (st₁.maybe Token.And) fun more st =>
    if more then
      pbind (parseComparisonF (k + 2) st) fun right st' =>
        parseAndRestF (k + 2) (Expr.Binary "AND" c₁ right) st'
    else some (.ok (c₁, st))) = _
  rw [h2]
  show (pbind (parseComparisonF (k + 2) st₂) fun right st' =>
    parseAndRestF (k + 2) (Expr.Binary "AND" c₁ right) st') = _
  rw [h3]
  show (ebind (st₃.maybe Token.And) fun more st =>
    if more then
      pbind (parseComparisonF (k + 1) st) fun right st' =>
        parseAndRestF (k + 1) (Expr.Binary "AND" (Expr.Binary "AND" c₁ c₂) right) st'
    else some (.ok (Expr.Binary "AND" c₁ c₂, st))) = _
  rw [h4]
  show (pbind (parseComparisonF (k + 1) st₄) fun right st' =>
    parseAndRestF (k + 1) (Expr.Binary "AND" (Expr.Binary "AND" c₁ c₂) right) st') = _
  rw [h5]
  show (ebind (st₅.maybe Token.And) fun more st =>
    if more then
      pbind (parseComparisonF k st) fun right st' =>
        parseAndRestF k
          (Expr.Binary "AND" (Expr.Binary "AND" (Expr.Binary "AND" c₁ c₂) c₃) right) st'
    else some (.ok (Expr.Binary "AND" (Expr.Binary "AND" c₁ c₂) c₃, st))) = _
  rw [h6]
  exact rfl

theorem claim_C4_witness :
    parseLogicalAndF 103 ⟨" 1 AND b = 2 AND c = 3".data, Token.Ident "a", Token.Eq⟩ =
      some (.ok (Expr.Binary "AND"
        (Expr.Binary "AND"
          (Expr.Binary "=" (Expr.Ident "a") (Expr.Int 1))
          (Expr.Binary "=" (Expr.Ident "b") (Expr.Int 2)))
        (Expr.Binary "=" (Expr.Ident "c") (Expr.Int 3)),
        (⟨[], Token.Eof, Token.Eof⟩ : PState))) :=
  claim_C4 99
    ⟨" 1 AND b = 2 AND c = 3".data, Token.Ident "a", Token.Eq⟩
    ⟨" = 2 AND c = 3".data, Token.And, Token.Ident "b"⟩
    ⟨" 2 AND c = 3".data, Token.Ident "b", Token.Eq⟩
    ⟨" = 3".data, Token.And, Token.Ident "c"⟩
    ⟨" 3".data, Token.Ident "c", Token.Eq⟩
    ⟨[], Token.Eof, Token.Eof⟩
    ⟨[], Token.Eof, Token.Eof⟩
    (Expr.Binary "=" (Expr.Ident "a") (Expr.Int 1))
    (Expr.Binary "=" (Expr.Ident "b") (Expr.Int 2))
    (Expr.Binary "=" (Expr.Ident "c") (Expr.Int 3))
    (by decide) (by decide) (by decide) (by decide) (by decide) (by decide)

/-- C5: the comparison production binds at most one operator per pair of
primaries: parsing `a = b = c` as an expression yields only `a = b` and
stops with the second `=` still the current (unconsumed) token, and a full
statement containing the chain fails with an unexpected-token error rather
than parsing a flattened three-operand chain. -/
theorem claim_C5 :
    parseExprRemTop "a = b = c" =
      some (.ok (Expr.Binary "=" (Expr.Ident "a") (Expr.Ident "b"), Token.Eq)) ∧
    parse "SELECT * FROM t WHERE a = b = c" =
      some (.error (QueryErr.unexpectedToken "<stmt>" "Eq")) := by
  refine ⟨?_, ?_⟩ <;> decide

/-- C6: numeric-literal resolution in `parse_primary` tries integer parsing
first, then floating-point parsing, and otherwise fails with an
invalid-expression error carrying the offending text: `42` yields `Int 42`,
`3.14` yields `Float 3.14`, and `1.2.3` (lexed as one numeric token) yields
`InvalidExpr`. -/
theorem claim_C6 :
    parseExprRemTop "42" = some (.ok (Expr.Int 42, Token.Eof)) ∧
    parseExprRemTop "3.14" = some (.ok (Expr.Float (3.14 : Rat), Token.Eof)) ∧
    parseExprRemTop "1.2.3" =
      some (.error (QueryErr.invalidExpr "Invalid number: 1.2.3")) := by
  refine ⟨by decide, ?_, by decide⟩
  have h0 : parseExprRemTop "3.14" =
      some (.ok (Expr.Float ((digitsVal ['3'] : Rat) +
        (digitsVal ['1', '4'] : Rat) / ((10 : Rat) ^ (2 : Nat))), Token.Eof)) := rfl
  have hd3 : digitsVal ['3'] = 3 := rfl
  have hd14 : digitsVal ['1', '4'] = 14 := rfl
  rw [h0, hd3, hd14]
  have h1 : ((3 : Nat) : Rat) + ((14 : Nat) : Rat) / ((10 : Rat) ^ (2 : Nat)) =
      (3.14 : Rat) := by
    norm_num
  rw [h1]

/-- C7: `SELECT * FROM users` parses to Select with table `users`, the
wildcard materialized as the single-element column list `Columns(["*"])`
(not a distinct AST variant), and an empty clauses sequence. -/
theorem claim_C7 :
    parseStmtTop "SELECT * FROM users" =
      some (.ok (Stmt.Select "users" (Clause.Columns ["*"]) [])) := by
  decide

/-- C8: every statement produced by a successful parse has a clauses field
holding either zero entries or exactly one entry which is a Where clause;
an absent optional WHERE leaves the empty sequence, never an
absent/uninitialized state. -/
theorem claim_C8 : ∀ (input : String) (stmts : List Stmt),
    parse input = some (.ok stmts) → ∀ s ∈ stmts, stmtClausesOk s := by
  intro input stmts hp s hs
  unfold parse at hp
  cases hmk : mkParser input with
  | error e =>
    rw [hmk] at hp
    exact Except.noConfusion (Option.some.inj hp)
  | ok st =>
    rw [hmk] at hp
    have hp' : (match parseBlockF st.fuelBound [Token.Eof] st with
        | none => none
        | some (.error e) => some (.error e)
        | some (.ok (stmts, _)) => some (.ok stmts)) = some (Except.ok stmts) := hp
    cases hblk : parseBlockF st.fuelBound [Token.Eof] st with
    | none => rw [hblk] at hp'; exact Option.noConfusion hp'
    | some r =>
      rw [hblk] at hp'
      cases r with
      | error e => exact Except.noConfusion (Option.some.inj hp')
      | ok p =>
        obtain ⟨stmts', st'⟩ := p
        have hall := (parserMeasure st.fuelBound).2.2.2.2.2.2.2.2.2.2.2.2.2.2
          [Token.Eof] st stmts' st' hblk
        have hp'' : stmts' = stmts := by
          have := Option.some.inj hp'
          injection this with h₂
        rw [← hp''] at hs
        exact hall s hs

theorem claim_C8_witness :
    parse "DELETE FROM users" = some (.ok [Stmt.Delete "users" []]) ∧
    stmtClausesOk (Stmt.Delete "users" []) :=
  ⟨by decide,
   claim_C8 "DELETE FROM users" [Stmt.Delete "users" []] (by decide)
     (Stmt.Delete "users" []) (by simp)⟩

/-- C9: the parser terminates on every finite token stream: with a fuel
budget proportional to the parser-state measure (unscanned characters plus
lookahead weight), `parse_block` never exhausts its budget — every loop
consumes input or exits — and consequently `parse` yields a definite result
on every string input. -/
theorem claim_C9 :
    (∀ (fuel : Nat) (terms : List Token) (st : PState),
      16 * st.measure + 9 ≤ fuel → parseBlockF fuel terms st ≠ none) ∧
    ∀ input : String, parse input ≠ none :=
  ⟨fun fuel terms st h =>
    (parserFuel fuel).2.2.2.2.2.2.2.2.2.2.2.2.2.2 terms st h,
   parse_ne_none⟩

theorem claim_C9_witness :
    parseBlockF 300 [Token.Eof]
      (⟨"DROP TABLE t".data, Token.Drop, Token.Table⟩ : PState) ≠ none :=
  claim_C9.1 300 [Token.Eof] ⟨"DROP TABLE t".data, Token.Drop, Token.Table⟩
    (by decide)

/-- C10: a parenthesized sub-expression parses to exactly the AST of its
inner expression with no grouping node: whenever `parse_primary` consumes a
`(`, the inner `parse_expr` result `e` is returned unchanged once the
matching `)` is consumed. -/
theorem claim_C10 : ∀ (f : Nat) (st₀ st₁ st₂ st₃ : PState) (e : Expr),
    st₀.next = .ok (Token.LParen, st₁) →
    parseExprF f st₁ = some (.ok (e, st₂)) →
    st₂.expect Token.RParen = .ok st₃ →
    parsePrimaryF (f + 1) st₀ = some (.ok (e, st₃)) := by
  intro f st₀ st₁ st₂ st₃ e h₁ h₂ h₃
  simp only [parsePrimaryF]
  rw [h₁]
  show (pbind (parseExprF f st₁) fun e' st₂' =>
    qbind (st₂'.expect Token.RParen) fun st₃' => some (.ok (e', st₃'))) = _
  rw [h₂]
  show (qbind (st₂.expect Token.RParen) fun st₃' => some (.ok (e, st₃'))) = _
  rw [h₃]
  exact rfl

theorem claim_C10_witness :
    parsePrimaryF 100
        (⟨" = b) = c".data, Token.LParen, Token.Ident "a"⟩ : PState) =
      some (.ok (Expr.Binary "=" (Expr.Ident "a") (Expr.Ident "b"),
        (⟨[], Token.Eq, Token.Ident "c"⟩ : PState))) ∧
    parseExprRemTop "(a = b) = c" =
      some (.ok (Expr.Binary "="
        (Expr.Binary "=" (Expr.Ident "a") (Expr.Ident "b"))
        (Expr.Ident "c"), Token.Eof)) :=
  ⟨claim_C10 99
    ⟨" = b) = c".data, Token.LParen, Token.Ident "a"⟩
    ⟨" b) = c".data, Token.Ident "a", Token.Eq⟩
    ⟨" c".data, Token.RParen, Token.Eq⟩
    ⟨[], Token.Eq, Token.Ident "c"⟩
    (Expr.Binary "=" (Expr.Ident "a") (Expr.Ident "b"))
    (by decide) (by decide) (by decide),
   by decide⟩
